import Mathlib

set_option linter.all false

/-!
Shallow embedding of the citra HLE kernel (`src/core/hle/kernel`): auto-object
reference counting, the synchronization-object wakeup framework, semaphores,
the scheduler's ready queue, the handle table, mutex priority inheritance,
the address arbiter and the memory block manager, together with proofs about
the claims of the specification.
-/

namespace Citra

/-- `ThreadStatus` from `k_thread.h`. -/
inductive ThreadStatus where
  | Running
  | Ready
  | WaitArb
  | WaitSleep
  | WaitIPC
  | WaitSynchAny
  | WaitSynchAll
  | WaitHleEvent
  | Dormant
  | Dead
deriving DecidableEq, Repr

/-- `ThreadPrioLowest = 63` from `k_thread.h`. -/
def threadPrioLowest : Nat := 63

/-- Kernel `Result` values. The numeric packing (module/summary/level/description)
lives in `core/hle/result.h`; here only the distinct codes the kernel sources use
are enumerated, named after the source constants. -/
inductive KResult where
  | success
  | timeout
  | outOfRangeKernel
  | outOfHandles
  | wrongLockingThread
  | invalidStateKernel
  | invalidEnumValueFnd
deriving DecidableEq, Repr

namespace KAutoObject

/-- Reference-count slice of a `KAutoObject` (`k_auto_object.h`): the atomic
count, how many times `Destroy` has run, and whether the `ASSERT(cur_ref_count > 0)`
in `Close` has fired. -/
structure RefState where
  refCount : Nat
  destroyCount : Nat
  assertFailed : Bool
deriving DecidableEq, Repr

/-- `KAutoObject::Open`: increments the count only if it is positive; returns
whether the open succeeded. -/
def Open (s : RefState) : Bool × RefState :=
  if s.refCount = 0 then (false, s)
  else (true, { s with refCount := s.refCount + 1 })

/-- `KAutoObject::Close`: asserts the count is positive, decrements it, and
invokes `Destroy` exactly when the count reaches zero. -/
def Close (s : RefState) : RefState :=
  if s.refCount = 0 then { s with assertFailed := true }
  else if s.refCount - 1 = 0 then
    { s with refCount := 0, destroyCount := s.destroyCount + 1 }
  else { s with refCount := s.refCount - 1 }

/-- One guest-visible operation on the reference count. -/
inductive RefOp where
  | opn
  | cls
deriving DecidableEq, Repr

def step (op : RefOp) (s : RefState) : RefState :=
  match op with
  | .opn => (Open s).2
  | .cls => Close s

def run (ops : List RefOp) (s : RefState) : RefState :=
  ops.foldl (fun s op => step op s) s

/-- An object as returned by its allocator: one reference held. -/
def initial : RefState := ⟨1, 0, false⟩

end KAutoObject

namespace KSynchronizationObject

/-- The slice of a `KThread` that `GetHighestPriorityReadyThread` inspects:
identity, current priority, status, and the ids of its wait objects. -/
structure Waiter where
  tid : Nat
  currentPriority : Nat
  status : ThreadStatus
  waitObjects : List Nat
deriving DecidableEq, Repr

/-- The scan loop of `KSynchronizationObject::GetHighestPriorityReadyThread`
(`k_synchronization_object.cpp`). `shouldWait o w` is the virtual
`o->ShouldWait(w)` dispatch; `self` is the object being signaled. The
accumulator pair mirrors `candidate` / `candidate_priority`. -/
def GetHighestPriorityReadyThreadGo (shouldWait : Nat → Waiter → Bool) (self : Nat) :
    List Waiter → Option Waiter → Nat → Option Waiter
  | [], cand, _ => cand
  | w :: rest, cand, candPrio =>
    if candPrio ≤ w.currentPriority || shouldWait self w then
      GetHighestPriorityReadyThreadGo shouldWait self rest cand candPrio
    else
      let readyToRun :=
        if w.status = ThreadStatus.WaitSynchAll then
          w.waitObjects.all (fun o => !shouldWait o w)
        else true
      if readyToRun then
        GetHighestPriorityReadyThreadGo shouldWait self rest (some w) w.currentPriority
      else
        GetHighestPriorityReadyThreadGo shouldWait self rest cand candPrio

/-- `KSynchronizationObject::GetHighestPriorityReadyThread`: candidate starts
null with `candidate_priority = ThreadPrioLowest + 1`. -/
def GetHighestPriorityReadyThread (shouldWait : Nat → Waiter → Bool) (self : Nat)
    (waiters : List Waiter) : Option Waiter :=
  GetHighestPriorityReadyThreadGo shouldWait self waiters none (threadPrioLowest + 1)

/-- A waiter qualifies for wakeup: its own `ShouldWait` on the signaled object
is false and, when it sleeps on wait-all, every one of its wait objects has
`ShouldWait` false. -/
def IsReadyCandidate (shouldWait : Nat → Waiter → Bool) (self : Nat) (w : Waiter) : Bool :=
  !shouldWait self w &&
    (if w.status = ThreadStatus.WaitSynchAll then
      w.waitObjects.all (fun o => !shouldWait o w)
    else true)

/-- Specification-side selection: the first waiter, in list order, achieving the
lowest current priority among qualifying waiters (FIFO tie-break). -/
def SelectReadyCandidate (qual : Waiter → Bool) : List Waiter → Option Waiter
  | [] => none
  | w :: rest =>
    match SelectReadyCandidate qual rest with
    | none => if qual w then some w else none
    | some c =>
      if qual w then
        (if c.currentPriority < w.currentPriority then some c else some w)
      else some c

/-- Combining an incumbent candidate with the best of the remaining waiters:
the incumbent survives unless a strictly lower priority shows up (proof
helper for relating the scan loop to `SelectReadyCandidate`). -/
def mergeCandidate (c : Waiter) : Option Waiter → Waiter
  | none => c
  | some r => if r.currentPriority < c.currentPriority then r else c

end KSynchronizationObject

namespace KSemaphore

open KSynchronizationObject

/-- The slice of a `KSemaphore` the claims touch (`k_semaphore.h`):
`m_available_count`, `m_max_count` (both `s32`) and the inherited waiter list. -/
structure SemState where
  availableCount : Int
  maxCount : Int
  waiters : List Waiter
deriving DecidableEq, Repr

/-- `KSemaphore::ShouldWait`: wait while no count is available. (The thread
argument is unused in the source.) -/
def ShouldWait (available : Int) : Bool := available ≤ 0

/-- The `WakeupAllWaitingThreads` loop instantiated at a semaphore: the world
contains the one semaphore, so every virtual `ShouldWait` dispatch resolves to
it. Each iteration picks the highest-priority ready waiter, acquires (i.e.
decrements the count if positive), removes the thread from the waiter list and
resumes it. Fuel bounds the iteration; one waiter leaves the list per round. -/
def WakeupLoop : Nat → Int → List Waiter → Int × List Waiter
  | 0, avail, ws => (avail, ws)
  | fuel + 1, avail, ws =>
    match GetHighestPriorityReadyThread (fun _ _ => ShouldWait avail) 0 ws with
    | none => (avail, ws)
    | some w =>
      let avail' := if avail ≤ 0 then avail else avail - 1
      WakeupLoop fuel avail' (ws.erase w)

def WakeupAllWaitingThreads (avail : Int) (ws : List Waiter) : Int × List Waiter :=
  WakeupLoop ws.length avail ws

/-- `KSemaphore::Release(out_count, release_count)`: fails with the kernel
out-of-range error when the increment would exceed the maximum, otherwise
increments the count, wakes waiters and reports the pre-release count. The
middle component models `*out_count` (written only on success). -/
def Release (s : SemState) (releaseCount : Int) : KResult × Option Int × SemState :=
  if releaseCount + s.availableCount ≤ s.maxCount then
    let previous := s.availableCount
    let woken := WakeupAllWaitingThreads (s.availableCount + releaseCount) s.waiters
    (.success, some previous,
      { availableCount := woken.1, maxCount := s.maxCount, waiters := woken.2 })
  else (.outOfRangeKernel, none, s)

end KSemaphore

namespace ThreadManager

/-- The slice of a `KThread` the scheduler inspects in `PopNextReadyThread`:
identity, `m_current_priority`, `m_can_schedule` and `m_status`. -/
structure SThread where
  tid : Nat
  currentPriority : Nat
  canSchedule : Bool
  status : ThreadStatus
deriving DecidableEq, Repr

/-- Modelled from the spec: `Common::ThreadQueueList` (`common/thread_queue_list.h`
is not among the sources here). Per the spec it is a priority-bucketed queue
with 64 priority levels, 0 highest; the list index is the priority, each bucket
is FIFO. -/
def ReadyQueue := List (List SThread)
deriving DecidableEq

/-- Modelled from the spec: pop the front of the first non-empty bucket
(highest priority first). -/
def popFirst : List (List SThread) → Option (SThread × List (List SThread))
  | [] => none
  | (t :: ts) :: rest => some (t, ts :: rest)
  | [] :: rest =>
    match popFirst rest with
    | some (t, rest') => some (t, [] :: rest')
    | none => none

/-- Modelled from the spec: pop the front of the first non-empty bucket among
those strictly better (lower-numbered) than `prio`; null when no such thread
exists. -/
def popFirstBetter (prio : Nat) (q : List (List SThread)) :
    Option (SThread × List (List SThread)) :=
  match popFirst (q.take prio) with
  | some (t, front) => some (t, front ++ q.drop prio)
  | none => none

/-- Modelled from the spec: append a thread to its priority's bucket. -/
def pushBack (prio : Nat) (t : SThread) (q : List (List SThread)) :
    List (List SThread) :=
  q.set prio (q.getD prio [] ++ [t])

/-- Total number of queued threads (termination measure for the pop loops). -/
def queueSize (q : List (List SThread)) : Nat :=
  (q.map List.length).sum

theorem popFirst_size {q : List (List SThread)} {t : SThread}
    {q' : List (List SThread)} (h : popFirst q = some (t, q')) :
    queueSize q' < queueSize q := by
  induction q generalizing q' with
  | nil => simp [popFirst] at h
  | cons b rest ih =>
    match b with
    | x :: xs =>
      simp only [popFirst] at h
      cases h
      simp [queueSize]
    | [] =>
      simp only [popFirst] at h
      cases hr : popFirst rest with
      | none => rw [hr] at h; cases h
      | some p =>
        rw [hr] at h
        cases p with
        | mk u rest' =>
          cases h
          have := ih hr
          simpa [queueSize] using this

theorem popFirstBetter_size {p : Nat} {q : List (List SThread)} {t : SThread}
    {q' : List (List SThread)} (h : popFirstBetter p q = some (t, q')) :
    queueSize q' < queueSize q := by
  unfold popFirstBetter at h
  cases hp : popFirst (q.take p) with
  | none => rw [hp] at h; cases h
  | some pr =>
    rw [hp] at h
    cases pr with
    | mk u front =>
      cases h
      have hlt := popFirst_size hp
      have hsplit : queueSize q = queueSize (q.take p) + queueSize (q.drop p) := by
        unfold queueSize
        rw [← List.sum_append, ← List.map_append, List.take_append_drop]
      have : queueSize (front ++ q.drop p) = queueSize front + queueSize (q.drop p) := by
        unfold queueSize
        rw [← List.sum_append, List.map_append]
      omega

/-- The `do`-loop of `PopNextReadyThread` when the current thread is still
`Running` (`k_thread.cpp`): repeatedly `pop_first_better(current priority)`,
parking non-schedulable threads on the side queue; when the pop comes back
null the current thread itself is kept. -/
def runningLoop (cur : SThread) (q : List (List SThread)) (unsched : List SThread) :
    SThread × List (List SThread) × List SThread :=
  match h : popFirstBetter cur.currentPriority q with
  | none => (cur, q, unsched)
  | some (t, q') =>
    if t.canSchedule then (t, q', unsched)
    else runningLoop cur q' (unsched ++ [t])
termination_by queueSize q
decreasing_by exact popFirstBetter_size h

/-- The `do`-loop of `PopNextReadyThread` when there is no running current
thread: `pop_first` unconditionally, parking non-schedulable threads. -/
def idleLoop (q : List (List SThread)) (unsched : List SThread) :
    Option SThread × List (List SThread) × List SThread :=
  match h : popFirst q with
  | none => (none, q, unsched)
  | some (t, q') =>
    if t.canSchedule then (some t, q', unsched)
    else idleLoop q' (unsched ++ [t])
termination_by queueSize q
decreasing_by exact popFirst_size h

/-- The trailing reinsertion loop: the side queue is drained from the back,
each thread pushed back onto its priority bucket. -/
def reinsertUnscheduled (q : List (List SThread)) (unsched : List SThread) :
    List (List SThread) :=
  unsched.reverse.foldl (fun acc t => pushBack t.currentPriority t acc) q

/-- `ThreadManager::PopNextReadyThread` (`k_thread.cpp` lines 103-134). -/
def PopNextReadyThread (current : Option SThread) (q : List (List SThread)) :
    Option SThread × List (List SThread) :=
  match current with
  | some cur =>
    if cur.status = ThreadStatus.Running then
      let r := runningLoop cur q []
      (some r.1, reinsertUnscheduled r.2.1 r.2.2)
    else
      let r := idleLoop q []
      (r.1, reinsertUnscheduled r.2.1 r.2.2)
  | none =>
    let r := idleLoop q []
    (r.1, reinsertUnscheduled r.2.1 r.2.2)

/-- All threads in the queue, in bucket order. -/
def queueThreads (q : List (List SThread)) : List SThread := q.join

/-- The queue is well formed when every thread sits in the bucket of its own
priority and is schedulable. -/
def WellFormedQueue (q : List (List SThread)) : Prop :=
  ∀ i < q.length, ∀ t ∈ q.getD i [], t.currentPriority = i ∧ t.canSchedule = true

instance (q : List (List SThread)) : Decidable (WellFormedQueue q) := by
  unfold WellFormedQueue
  infer_instance

end ThreadManager

namespace KHandleTable

/-- A kernel object as the handle table sees it: the current thread / current
process pseudo-handles resolve outside the table, ordinary objects live in it. -/
inductive KObj where
  | thread (id : Nat)
  | process (id : Nat)
  | other (id : Nat)
deriving DecidableEq, Repr

/-- `KernelHandle` from `k_handle_table.h`: `CurrentThread = 0xFFFF8000`,
`CurrentProcess = 0xFFFF8001`. -/
def CurrentThreadHandle : Nat := 0xFFFF8000

def CurrentProcessHandle : Nat := 0xFFFF8001

/-- Two's-complement encoding of an `s16` value into its raw `u16` pattern
(the `EntryInfo` union stores `linear_id : u16` and `next_free_index : s16`
in the same 16 bits). -/
def encodeS16 (v : Int) : Nat := (v % 65536).toNat

/-- Reading the raw `u16` pattern back as `s16`. -/
def decodeS16 (n : Nat) : Int := if n < 32768 then (n : Int) else (n : Int) - 65536

/-- `KHandleTable` state (`k_handle_table.h`): `m_entry_infos` as raw 16-bit
patterns, `m_objects`, `m_free_head_index`, `m_table_size`, `m_max_count`,
`m_next_linear_id`, `m_count`. -/
structure HTState where
  entryInfos : List Nat
  objects : List (Option KObj)
  freeHeadIndex : Int
  tableSize : Nat
  maxCount : Nat
  nextLinearId : Nat
  count : Nat
deriving DecidableEq, Repr

/-- `KHandleTable::Initialize(size)` for `0 < size ≤ MaxTableSize` (the `s16`
cast is the identity there; `size ≤ 0` selects `MaxTableSize = 1024`). -/
def Initialize (size : Nat) : HTState :=
  let ts := if size = 0 then 1024 else size
  { entryInfos := (List.range ts).map (fun (i : Nat) => encodeS16 ((i : Int) - 1))
    objects := List.replicate ts none
    freeHeadIndex := (ts : Int) - 1
    tableSize := ts
    maxCount := 0
    nextLinearId := 1
    count := 0 }

/-- `EncodeHandle(index, linear_id)`: index in bits 0-14, linear id in bits
15-29, reserved bits zero. -/
def EncodeHandle (index linearId : Nat) : Nat := index + linearId * 32768

def handleIndex (h : Nat) : Nat := h % 32768

def handleLinearId (h : Nat) : Nat := (h % 4294967296) / 32768 % 32768

def handleReserved (h : Nat) : Nat := h % 4294967296 / 1073741824

/-- `KHandleTable::IsValidHandle` (reserved bits already checked by callers). -/
def IsValidHandle (s : HTState) (h : Nat) : Bool :=
  if h % 4294967296 = 0 then false
  else if handleLinearId h = 0 then false
  else if s.tableSize ≤ handleIndex h then false
  else
    match s.objects.getD (handleIndex h) none with
    | none => false
    | some _ => decide (s.entryInfos.getD (handleIndex h) 0 = handleLinearId h)

/-- `KHandleTable::GetObjectImpl`. -/
def GetObjectImpl (s : HTState) (h : Nat) : Option KObj :=
  if handleReserved h ≠ 0 then none
  else if IsValidHandle s h then s.objects.getD (handleIndex h) none
  else none

/-- `KHandleTable::Add`: `none` models `ResultOutOfHandles`. The allocation
order follows the source: linear id first, then the free-list head entry. -/
def Add (s : HTState) (obj : KObj) : Option (Nat × HTState) :=
  if s.count < s.tableSize then
    let linearId := s.nextLinearId
    let nextId := if 32767 < s.nextLinearId + 1 then 1 else s.nextLinearId + 1
    let index := s.freeHeadIndex.toNat
    let freeHead' := decodeS16 (s.entryInfos.getD index 0)
    let count' := s.count + 1
    some (EncodeHandle index linearId,
      { entryInfos := s.entryInfos.set index linearId
        objects := s.objects.set index (some obj)
        freeHeadIndex := freeHead'
        tableSize := s.tableSize
        maxCount := max s.maxCount count'
        nextLinearId := nextId
        count := count' })
  else none

/-- `KHandleTable::Remove`: pseudo-handles and reserved bits are rejected,
then a valid handle's slot is freed (`FreeEntry`). The object's `Close` is
outside the table slice. -/
def Remove (s : HTState) (h : Nat) : Bool × HTState :=
  if h = CurrentProcessHandle ∨ h = CurrentThreadHandle then (false, s)
  else if handleReserved h ≠ 0 then (false, s)
  else if IsValidHandle s h then
    let index := handleIndex h
    (true,
      { entryInfos := s.entryInfos.set index (encodeS16 s.freeHeadIndex)
        objects := s.objects.set index none
        freeHeadIndex := (index : Int)
        tableSize := s.tableSize
        maxCount := s.maxCount
        nextLinearId := s.nextLinearId
        count := s.count - 1 })
  else (false, s)

/-- The calling context for pseudo-handle resolution: the current thread and
its owner process. -/
structure CurContext where
  threadId : Nat
  processId : Nat
deriving DecidableEq, Repr

/-- `KHandleTable::GetObjectForIpc` (`k_handle_table.cpp`): the
`CurrentProcess` pseudo-handle resolves to the calling thread's owner process,
`CurrentThread` to the calling thread, anything else goes through the table. -/
def GetObjectForIpc (s : HTState) (h : Nat) (ctx : CurContext) : Option KObj :=
  if h = CurrentProcessHandle then some (KObj.process ctx.processId)
  else if h = CurrentThreadHandle then some (KObj.thread ctx.threadId)
  else GetObjectImpl s h

/-- An `Add`/`Remove` table operation. -/
inductive HTOp where
  | add (obj : KObj)
  | remove (h : Nat)
deriving DecidableEq, Repr

def stepOp (s : HTState) (op : HTOp) : HTState :=
  match op with
  | .add obj =>
    match Add s obj with
    | some (_, s') => s'
    | none => s
  | .remove h => (Remove s h).2

def exec (s : HTState) (ops : List HTOp) : HTState :=
  ops.foldl stepOp s

/-- Whether an operation removes the given handle. -/
def removesHandle (op : HTOp) (h : Nat) : Bool :=
  match op with
  | .add _ => false
  | .remove h' => h' = h

/-- Handles are `u32` in the source (`using Handle = u32`); an operation is
representable when any handle it carries fits. -/
def HTOpValid : HTOp → Prop
  | .add _ => True
  | .remove h => h < 4294967296

instance : DecidablePred HTOpValid := by
  intro op
  cases op with
  | add obj => exact isTrue trivial
  | remove h => exact Nat.decLt h 4294967296

/-- The free list as the chain of `next_free_index` links starting at a head
index and terminating at `-1`. -/
inductive ChainOk (e : List Nat) : Int → List Nat → Prop where
  | nil : ChainOk e (-1) []
  | cons {i : Nat} {next : Int} {rest : List Nat} :
      i < e.length →
      decodeS16 (e.getD i 0) = next →
      ChainOk e next rest →
      ChainOk e ((i : Nat) : Int) (i :: rest)

/-- Reachability invariant of the handle table: the free list is a duplicate-free
chain through exactly `table_size - count` empty slots, array sizes match the
table size, and the next linear id stays in `[1, 0x7FFF]`. -/
def TableInv (s : HTState) : Prop :=
  ∃ fl : List Nat,
    ChainOk s.entryInfos s.freeHeadIndex fl
    ∧ fl.Nodup
    ∧ (∀ i ∈ fl, s.objects.getD i none = none)
    ∧ fl.length + s.count = s.tableSize
    ∧ s.entryInfos.length = s.tableSize
    ∧ s.objects.length = s.tableSize
    ∧ 1 ≤ s.nextLinearId ∧ s.nextLinearId ≤ 32767
    ∧ s.tableSize ≤ 1024

end KHandleTable

namespace KMutex

/-- The slice of a `KThread` the mutex claims touch (`k_thread.h`):
`m_nominal_priority`, `m_current_priority`, `m_held_mutexes`,
`m_pending_mutexes`, `m_status` and `m_wait_objects` (mutex ids in this
world). The flat sets are lists used as sets. -/
structure MThread where
  nominal : Nat
  current : Nat
  held : List Nat
  pending : List Nat
  status : ThreadStatus
  waitObjs : List Nat
deriving DecidableEq, Repr

/-- The slice of a `KMutex` (`k_mutex.h`): `m_lock_count`, `m_priority`,
`m_holding_thread` and the inherited waiter list. -/
structure MMutex where
  lockCount : Nat
  priority : Nat
  holder : Option Nat
  waiters : List Nat
deriving DecidableEq, Repr

/-- The object graph: threads and mutexes by id. -/
structure MxState where
  threads : Nat → MThread
  mutexes : Nat → MMutex

def setThread (s : MxState) (tid : Nat) (t : MThread) : MxState :=
  { s with threads := fun i => if i = tid then t else s.threads i }

def setMutex (s : MxState) (mid : Nat) (m : MMutex) : MxState :=
  { s with mutexes := fun i => if i = mid then m else s.mutexes i }

/-- `boost::container::flat_set::insert` viewed as a set insertion. -/
def insertId (x : Nat) (l : List Nat) : List Nat := if x ∈ l then l else x :: l

/-- `KThread::UpdatePriority` (`k_thread.cpp` 380-388): the best priority among
the nominal priority and every held mutex's priority, then `BoostPriority`.
(`BoostPriority`'s ready-queue move only repositions the thread in the
scheduler; the priority fields are what this slice tracks.) -/
def ThreadUpdatePriority (s : MxState) (tid : Nat) : MxState :=
  let t := s.threads tid
  let best := t.held.foldl
    (fun b m => if (s.mutexes m).priority < b then (s.mutexes m).priority else b) t.nominal
  setThread s tid { t with current := best }

/-- `KMutex::ShouldWait`: busy and held by another thread. -/
def ShouldWait (s : MxState) (mid : Nat) (tid : Nat) : Bool :=
  0 < (s.mutexes mid).lockCount && (s.mutexes mid).holder ≠ some tid

/-- `KMutex::UpdatePriority` (`k_mutex.cpp` 122-138): no-op without a holder;
otherwise the mutex's priority becomes the best current priority among its
waiters (starting from `ThreadPrioLowest`), and if that changed the holder's
priority is recomputed. -/
def MutexUpdatePriority (s : MxState) (mid : Nat) : MxState :=
  let m := s.mutexes mid
  match m.holder with
  | none => s
  | some holder =>
    let best := m.waiters.foldl
      (fun b t => if (s.threads t).current < b then (s.threads t).current else b)
      threadPrioLowest
    if best ≠ m.priority then
      ThreadUpdatePriority (setMutex s mid { m with priority := best }) holder
    else s

/-- `KMutex::Acquire` (`k_mutex.cpp` 61-74): on first acquisition record the
holder, seed the mutex priority from the holder's current priority, add the
mutex to the held set and recompute the holder's priority; always increment
the lock count afterwards. -/
def Acquire (s : MxState) (mid : Nat) (tid : Nat) : MxState :=
  let m := s.mutexes mid
  if m.lockCount = 0 then
    let t := s.threads tid
    let s1 := setMutex s mid { m with priority := t.current }
    let s2 := setThread s1 tid { t with held := insertId mid t.held }
    let s3 := setMutex s2 mid { (s2.mutexes mid) with holder := some tid }
    let s4 := ThreadUpdatePriority s3 tid
    setMutex s4 mid { (s4.mutexes mid) with lockCount := (s4.mutexes mid).lockCount + 1 }
  else
    setMutex s mid { m with lockCount := m.lockCount + 1 }

/-- `KMutex::AddWaitingThread` (`k_mutex.cpp` 110-114): the base class appends
the thread to the waiter list if absent, then the mutex is added to the
thread's pending set and the mutex priority is recomputed. -/
def AddWaitingThread (s : MxState) (mid : Nat) (tid : Nat) : MxState :=
  let m := s.mutexes mid
  let waiters' := if tid ∈ m.waiters then m.waiters else m.waiters ++ [tid]
  let s1 := setMutex s mid { m with waiters := waiters' }
  let t := s1.threads tid
  let s2 := setThread s1 tid { t with pending := insertId mid t.pending }
  MutexUpdatePriority s2 mid

/-- `KMutex::RemoveWaitingThread` (`k_mutex.cpp` 116-120). -/
def RemoveWaitingThread (s : MxState) (mid : Nat) (tid : Nat) : MxState :=
  let m := s.mutexes mid
  let s1 := setMutex s mid { m with waiters := m.waiters.erase tid }
  let t := s1.threads tid
  let s2 := setThread s1 tid { t with pending := t.pending.erase mid }
  MutexUpdatePriority s2 mid

/-- The waiter views handed to the shared
`KSynchronizationObject::GetHighestPriorityReadyThread` loop. -/
def waiterView (s : MxState) (tid : Nat) : KSynchronizationObject.Waiter :=
  { tid := tid
    currentPriority := (s.threads tid).current
    status := (s.threads tid).status
    waitObjects := (s.threads tid).waitObjs }

/-- `GetHighestPriorityReadyThread` instantiated at a mutex world: virtual
`ShouldWait` dispatch resolves to `KMutex::ShouldWait` of the object id. -/
def GetHighestPriorityReadyThread (s : MxState) (mid : Nat) : Option Nat :=
  Option.map (fun w => w.tid)
    (KSynchronizationObject.GetHighestPriorityReadyThread
      (fun oid w => ShouldWait s oid w.tid) mid
      ((s.mutexes mid).waiters.map (waiterView s)))

/-- The thread-side effect of `KThread::ResumeFromWait` on this slice: wait
statuses transition to `Ready` (the ready-queue push carries no priority
information beyond `m_current_priority`, which is already tracked). -/
def MxResumeFromWait (s : MxState) (tid : Nat) : MxState :=
  let t := s.threads tid
  match t.status with
  | .WaitSynchAll | .WaitSynchAny | .WaitHleEvent | .WaitArb | .WaitSleep
  | .WaitIPC | .Dormant => setThread s tid { t with status := .Ready }
  | .Ready | .Running | .Dead => s

/-- One iteration body of
`KSynchronizationObject::WakeupAllWaitingThreads` in the mutex world: acquire
the one object (or all of them for a wait-all sleeper), detach the thread
from every object it waited on, clear its wait list and resume it. -/
def WakeupIter (s : MxState) (mid tid : Nat) : MxState :=
  let t := s.threads tid
  let s1 :=
    if t.status ≠ ThreadStatus.WaitSynchAll then Acquire s mid tid
    else t.waitObjs.foldl (fun st o => Acquire st o tid) s
  let s2 := (s1.threads tid).waitObjs.foldl
    (fun st o => RemoveWaitingThread st o tid) s1
  let t2 := s2.threads tid
  let s3 := setThread s2 tid { t2 with waitObjs := [] }
  MxResumeFromWait s3 tid

/-- The wakeup loop: repeatedly pick the highest-priority ready waiter and
run the iteration body. Fuel starts at the waiter-list length; every
iteration removes the woken thread from this mutex's waiter list. -/
def WakeupLoop (mid : Nat) : Nat → MxState → MxState
  | 0, s => s
  | fuel + 1, s =>
    match GetHighestPriorityReadyThread s mid with
    | none => s
    | some tid => WakeupLoop mid fuel (WakeupIter s mid tid)

def WakeupAllWaitingThreads (s : MxState) (mid : Nat) : MxState :=
  WakeupLoop mid (s.mutexes mid).waiters.length s

/-- `KMutex::Release` (`k_mutex.cpp` 76-108): wrong-thread and zero-count
checks, then decrement; on reaching zero the holder sheds the mutex, its
priority is recomputed, the holder is cleared and all waiters are woken. -/
def Release (s : MxState) (mid : Nat) (tid : Nat) : KResult × MxState :=
  let m := s.mutexes mid
  if some tid ≠ m.holder then (.wrongLockingThread, s)
  else if m.lockCount = 0 then (.invalidStateKernel, s)
  else
    let s0 := setMutex s mid { m with lockCount := m.lockCount - 1 }
    if m.lockCount - 1 = 0 then
      let t := s0.threads tid
      let s1 := setThread s0 tid { t with held := t.held.erase mid }
      let s2 := ThreadUpdatePriority s1 tid
      let s3 := setMutex s2 mid { (s2.mutexes mid) with holder := none }
      (.success, WakeupAllWaitingThreads s3 mid)
    else (.success, s0)

/-- Concrete priority-inheritance scenario: thread 1 (nominal 10) holds
mutex 5 with no waiters yet; thread 2 (current priority 5) is about to block
on it. -/
def c4StateA : MxState :=
  { threads := fun i =>
      if i = 1 then ⟨10, 10, [5], [], ThreadStatus.Running, []⟩
      else if i = 2 then ⟨5, 5, [], [], ThreadStatus.WaitSynchAny, [5]⟩
      else ⟨63, 63, [], [], ThreadStatus.Dormant, []⟩
    mutexes := fun i =>
      if i = 5 then ⟨1, 10, some 1, []⟩
      else ⟨0, 63, none, []⟩ }

/-- Concrete release scenario: thread 1 (nominal 10, boosted to 5) holds
mutexes 5 and 6; thread 2 (priority 5) waits on mutex 5; mutex 6 carries
priority 7. -/
def c4StateB : MxState :=
  { threads := fun i =>
      if i = 1 then ⟨10, 5, [5, 6], [], ThreadStatus.Running, []⟩
      else if i = 2 then ⟨5, 5, [], [5], ThreadStatus.WaitSynchAny, [5]⟩
      else ⟨63, 63, [], [], ThreadStatus.Dormant, []⟩
    mutexes := fun i =>
      if i = 5 then ⟨1, 5, some 1, [2]⟩
      else if i = 6 then ⟨1, 7, some 1, []⟩
      else ⟨0, 63, none, []⟩ }

/-- Concrete stop-waiting scenario: as in the release scenario but thread 1
holds only mutex 5 and thread 2 simply stops waiting. -/
def c4StateC : MxState :=
  { threads := fun i =>
      if i = 1 then ⟨10, 5, [5], [], ThreadStatus.Running, []⟩
      else if i = 2 then ⟨5, 5, [], [5], ThreadStatus.WaitSynchAny, [5]⟩
      else ⟨63, 63, [], [], ThreadStatus.Dormant, []⟩
    mutexes := fun i =>
      if i = 5 then ⟨1, 5, some 1, [2]⟩
      else ⟨0, 63, none, []⟩ }

end KMutex

namespace KThreadWorld

/-- The slice of a `KThread` used by `ResumeFromWait` and the address arbiter:
status, current priority, `m_wait_address` and whether `m_wakeup_callback` is
set. -/
structure TThread where
  status : ThreadStatus
  currentPriority : Nat
  waitAddress : Nat
  hasWakeupCallback : Bool
deriving DecidableEq, Repr

/-- Threads by id plus the per-core ready queue (priority buckets of ids). -/
structure TWState where
  threads : Nat → TThread
  readyQueue : Nat → List Nat

def setThread (s : TWState) (tid : Nat) (t : TThread) : TWState :=
  { s with threads := fun i => if i = tid then t else s.threads i }

/-- `KThread::ResumeFromWait` (`k_thread.cpp` 268-305): wait statuses and
`Dormant` clear the wakeup callback, push onto the ready queue and become
`Ready`; an already-`Ready` thread is a tolerated duplicate wakeup and nothing
changes; `Running` and `Dead` are debug-assertion cases that also return with
no state change. -/
def ResumeFromWait (s : TWState) (tid : Nat) : TWState :=
  let t := s.threads tid
  match t.status with
  | .WaitSynchAll | .WaitSynchAny | .WaitHleEvent | .WaitArb | .WaitSleep
  | .WaitIPC | .Dormant =>
    { threads := fun i =>
        if i = tid then { t with status := .Ready, hasWakeupCallback := false }
        else s.threads i
      readyQueue := fun p =>
        if p = t.currentPriority then s.readyQueue p ++ [tid] else s.readyQueue p }
  | .Ready => s
  | .Running => s
  | .Dead => s

end KThreadWorld

namespace KAddressArbiter

open KThreadWorld

/-- `ArbitrationType` from `k_address_arbiter.h`. -/
inductive ArbitrationType where
  | Signal
  | WaitIfLessThan
  | DecrementAndWaitIfLessThan
  | WaitIfLessThanWithTimeout
  | DecrementAndWaitIfLessThanWithTimeout
deriving DecidableEq, Repr

/-- Arbiter state: the thread world, `m_waiting_threads`, guest memory
(32-bit words), the log of `WakeAfterDelay` schedulings, the synthetic ticks
added by the starvation workaround, and the current core id. -/
structure ArbState where
  tw : TWState
  waiting : List Nat
  memory : Nat → Nat
  scheduledWakeups : List (Nat × Int)
  addedTicks : Nat
  coreId : Nat

/-- A `u32` guest word read as `s32`. -/
def toS32 (n : Nat) : Int :=
  if n % 4294967296 < 2147483648 then ((n % 4294967296 : Nat) : Int)
  else ((n % 4294967296 : Nat) : Int) - 4294967296

/-- `KAddressArbiter::WaitThread`. -/
def WaitThread (s : ArbState) (tid : Nat) (waitAddress : Nat) : ArbState :=
  let t := s.tw.threads tid
  { s with
    tw := setThread s.tw tid
      { t with waitAddress := waitAddress, status := ThreadStatus.WaitArb }
    waiting := s.waiting ++ [tid] }

/-- `KThread::WakeAfterDelay`: skipped entirely when the delay is -1
("wait forever"); otherwise a wakeup event is scheduled. -/
def WakeAfterDelay (s : ArbState) (tid : Nat) (nanoseconds : Int) : ArbState :=
  if nanoseconds = -1 then s
  else { s with scheduledWakeups := s.scheduledWakeups ++ [(tid, nanoseconds)] }

/-- `KThread::SetWakeupCallback` with the arbiter's timeout callback. -/
def SetWakeupCallback (s : ArbState) (tid : Nat) : ArbState :=
  let t := s.tw.threads tid
  { s with tw := setThread s.tw tid { t with hasWakeupCallback := true } }

/-- `KAddressArbiter::ResumeAllThreads`: stable-partition the waiter list on
the address, resume every matching thread and drop them from the list,
returning how many were woken. -/
def ResumeAllThreads (s : ArbState) (address : Nat) : Nat × ArbState :=
  let keep := s.waiting.filter (fun tid => (s.tw.threads tid).waitAddress ≠ address)
  let woken := s.waiting.filter (fun tid => (s.tw.threads tid).waitAddress = address)
  let tw' := woken.foldl (fun acc tid => ResumeFromWait acc tid) s.tw
  (woken.length, { s with tw := tw', waiting := keep })

/-- `std::min_element` over ids by current priority: the first element
achieving the minimum. -/
def minByPriority (s : ArbState) : List Nat → Option Nat
  | [] => none
  | x :: xs => some (xs.foldl
      (fun b y =>
        if (s.tw.threads y).currentPriority < (s.tw.threads b).currentPriority then y else b) x)

/-- `KAddressArbiter::ResumeHighestPriorityThread`: stable-partition (the
reordering persists in `m_waiting_threads` even when nothing is woken), then
resume the first waiter of minimum priority among those waiting on the
address. -/
def ResumeHighestPriorityThread (s : ArbState) (address : Nat) : Bool × ArbState :=
  let keep := s.waiting.filter (fun tid => (s.tw.threads tid).waitAddress ≠ address)
  let hits := s.waiting.filter (fun tid => (s.tw.threads tid).waitAddress = address)
  match minByPriority s hits with
  | none => (false, { s with waiting := keep ++ hits })
  | some tid =>
    (true, { s with tw := ResumeFromWait s.tw tid, waiting := keep ++ hits.erase tid })

/-- `KAddressArbiter::ArbitrateAddress` (`k_address_arbiter.cpp` 119-194),
including the trailing quirk: the two timeout variants always report
`ResultTimeout`, whether or not the thread was put to sleep. -/
def ArbitrateAddress (s : ArbState) (tid : Nat) (ty : ArbitrationType)
    (address : Nat) (value : Int) (nanoseconds : Int) : KResult × ArbState :=
  let stepped :=
    match ty with
    | .Signal =>
      let r :=
        if value < 0 then ResumeAllThreads s address
        else
          (List.range value.toNat).foldl
            (fun (acc : Nat × ArbState) _ =>
              let r := ResumeHighestPriorityThread acc.2 address
              (acc.1 + (if r.1 then 1 else 0), r.2))
            (0, s)
      if r.1 = 0 ∧ r.2.coreId = 0 ∧ 49 ≤ (r.2.tw.threads tid).currentPriority then
        { r.2 with addedTicks := r.2.addedTicks + 1614 }
      else r.2
    | .WaitIfLessThan =>
      if toS32 (s.memory address) < value then WaitThread s tid address else s
    | .WaitIfLessThanWithTimeout =>
      if toS32 (s.memory address) < value then
        WaitThread (WakeAfterDelay (SetWakeupCallback s tid) tid nanoseconds) tid address
      else s
    | .DecrementAndWaitIfLessThan =>
      let memoryValue := toS32 (s.memory address)
      if memoryValue < value then
        let s1 := { s with memory := fun a =>
          if a = address then ((memoryValue - 1) % 4294967296).toNat else s.memory a }
        WaitThread s1 tid address
      else s
    | .DecrementAndWaitIfLessThanWithTimeout =>
      let memoryValue := toS32 (s.memory address)
      if memoryValue < value then
        let s1 := { s with memory := fun a =>
          if a = address then ((memoryValue - 1) % 4294967296).toNat else s.memory a }
        WaitThread (WakeAfterDelay (SetWakeupCallback s1 tid) tid nanoseconds) tid address
      else s
  match ty with
  | .WaitIfLessThanWithTimeout | .DecrementAndWaitIfLessThanWithTimeout =>
    (.timeout, stepped)
  | _ => (.success, stepped)

end KAddressArbiter

namespace KMemoryBlockManager

/-- `u32` wraparound (`VAddr` and sizes are 32-bit in the source). -/
def u32 (n : Nat) : Nat := n % 4294967296

/-- Modelled from the spec context: `Memory::CITRA_PAGE_BITS` lives in
`core/memory.h`, which is not among the sources here; citra's guest page size
is 4 KiB, so a page is `4096` bytes. -/
def pageSize : Nat := 4096

/-- `KMemoryBlock` (`k_memory_block.h`): base address, number of pages,
permission, state and tag. Permissions and states are kept as their raw
enumerator values (`KMemoryPermission` / `KMemoryState`). -/
structure MemBlock where
  baseAddr : Nat
  numPages : Nat
  perms : Nat
  state : Nat
  tag : Nat
deriving DecidableEq, Repr

/-- `KMemoryState::Free`. -/
def stateFree : Nat := 0x0

/-- `KMemoryState::Private`. -/
def statePrivate : Nat := 0x5

/-- `KMemoryState::Shared`. -/
def stateShared : Nat := 0x6

/-- `KMemoryPermission::None`. -/
def permNone : Nat := 0x0

/-- `KMemoryPermission::UserReadWrite`. -/
def permUserReadWrite : Nat := 0x3

/-- `KMemoryBlock::Initialize(base_addr, num_pages, tag, state, perms)`. -/
def mkBlock (baseAddr numPages tag state perms : Nat) : MemBlock :=
  { baseAddr := baseAddr, numPages := numPages, perms := perms, state := state, tag := tag }

def GetSize (b : MemBlock) : Nat := u32 (b.numPages * pageSize)

def GetEndAddress (b : MemBlock) : Nat := u32 (b.baseAddr + GetSize b)

def GetLastAddress (b : MemBlock) : Nat := u32 (GetEndAddress b + 4294967295)

def Contains (b : MemBlock) (addr : Nat) : Bool :=
  b.baseAddr ≤ addr && addr ≤ GetLastAddress b

def HasProperties (b : MemBlock) (state perms tag : Nat) : Bool :=
  b.state = state && b.perms = perms && b.tag = tag

def HasSameProperties (a b : MemBlock) : Bool :=
  a.state = b.state && a.perms = b.perms && a.tag = b.tag

/-- The `end_addr` computation `addr + (num_pages << PAGE_BITS) - 1` in `u32`
arithmetic. -/
def rangeLastAddr (addr numPages : Nat) : Nat :=
  u32 (addr + u32 (numPages * pageSize) + 4294967295)

/-- `KMemoryBlock::ShrinkBlock` (`k_memory_block.cpp` 9-21). -/
def ShrinkBlock (b : MemBlock) (addr numPages : Nat) : MemBlock :=
  let endAddr := rangeLastAddr addr numPages
  let lastAddr := GetLastAddress b
  if b.baseAddr < endAddr && endAddr < lastAddr then
    { b with baseAddr := endAddr + 1, numPages := (lastAddr - endAddr) / pageSize }
  else if b.baseAddr < addr && addr < lastAddr then
    { b with numPages := (addr - b.baseAddr) / pageSize }
  else b

/-- `KMemoryBlock::GrowBlock` (`k_memory_block.cpp` 23-33): both conditionals
run in sequence; the second one reads the possibly-updated base address while
`last_addr` was captured up front. -/
def GrowBlock (b : MemBlock) (addr numPages : Nat) : MemBlock :=
  let endAddr := rangeLastAddr addr numPages
  let lastAddr := GetLastAddress b
  let b1 :=
    if addr < b.baseAddr then
      { b with baseAddr := addr, numPages := (lastAddr - addr + 1) / pageSize }
    else b
  if lastAddr < endAddr then
    { b1 with numPages := (endAddr - b1.baseAddr + 1) / pageSize }
  else b1

/-- `KMemoryBlock::IncludesRange` (`k_memory_block.cpp` 35-39). -/
def IncludesRange (b : MemBlock) (addr numPages : Nat) : Bool :=
  let endAddr := rangeLastAddr addr numPages
  addr ≤ b.baseAddr && GetLastAddress b ≤ endAddr

/-- The body of the `CoalesceBlocks` loop: `prev` is the block under the
`prev` iterator, the list the blocks after it. Merging grows `prev` over its
successor and keeps scanning from the merged block. -/
def CoalesceGo (prev : MemBlock) : List MemBlock → List MemBlock
  | [] => [prev]
  | b :: rest =>
    if HasSameProperties prev b then CoalesceGo (GrowBlock prev b.baseAddr b.numPages) rest
    else prev :: CoalesceGo b rest

/-- `KMemoryBlockManager::CoalesceBlocks` (`k_memory_block_manager.cpp`
46-64): adjacent blocks with the same (state, permission, tag) are merged,
the merged block absorbing its successor's range via `GrowBlock`. -/
def CoalesceBlocks : List MemBlock → List MemBlock
  | [] => []
  | a :: rest => CoalesceGo a rest

/-- `KMemoryBlockManager::FindIterator`: index of the first block containing
the address. -/
def FindIterator (bs : List MemBlock) (addr : Nat) : Option Nat :=
  bs.findIdx? (fun b => Contains b addr)

/-- `KMemoryBlockManager::Update` (`k_memory_block_manager.cpp` 66-193):
`none` models the undefined iterator arithmetic of the source — a
`FindIterator` miss (dereferencing `end()`), or `begin` occurring after `end`
in list order (the interior-erase walk would run off the list). The
`SCOPE_EXIT` coalesce pass runs on every successful path. -/
def Update (bs : List MemBlock) (addr numPages state perms tag : Nat) :
    Option (List MemBlock) :=
  let lastAddr := rangeLastAddr addr numPages
  match FindIterator bs addr, FindIterator bs lastAddr with
  | some i, some j =>
    if hij : i = j then
      let b := bs.getD i (mkBlock 0 0 0 0 0)
      let res :=
        if HasProperties b state perms tag then bs
        else if b.baseAddr = addr then
          if GetSize b = u32 (numPages * pageSize) then
            bs.set i (mkBlock addr numPages tag state perms)
          else
            bs.take i ++ [ShrinkBlock b addr numPages, mkBlock addr numPages tag state perms]
              ++ bs.drop (i + 1)
        else if GetLastAddress b = lastAddr then
          bs.take i ++ [mkBlock addr numPages tag state perms, ShrinkBlock b addr numPages]
            ++ bs.drop (i + 1)
        else
          let pagesInBlock := (addr - b.baseAddr) / pageSize
          bs.take i ++
            [mkBlock b.baseAddr pagesInBlock 0 b.state b.perms,
             mkBlock addr numPages tag state perms,
             ShrinkBlock b 0 (numPages + addr / pageSize)] ++ bs.drop (i + 1)
      some (CoalesceBlocks res)
    else if i < j then
      let bi := bs.getD i (mkBlock 0 0 0 0 0)
      let bj := bs.getD j (mkBlock 0 0 0 0 0)
      let front := bs.take i
      let back := bs.drop (j + 1)
      let res :=
        if HasProperties bi state perms tag then
          if GetLastAddress bj = lastAddr then front ++ [GrowBlock bi addr numPages] ++ back
          else front ++ [GrowBlock bi addr numPages, ShrinkBlock bj addr numPages] ++ back
        else if HasProperties bj state perms tag then
          if bi.baseAddr = addr then front ++ [GrowBlock bj addr numPages] ++ back
          else front ++ [ShrinkBlock bi addr numPages, GrowBlock bj addr numPages] ++ back
        else
          let left := if IncludesRange bi addr numPages then [] else [ShrinkBlock bi addr numPages]
          let right := if IncludesRange bj addr numPages then [] else [ShrinkBlock bj addr numPages]
          front ++ left ++ [mkBlock addr numPages 0 state perms] ++ right ++ back
      some (CoalesceBlocks res)
    else none
  | _, _ => none

/-- `KMemoryBlockManager::Initialize(addr_space_start, addr_space_end)`:
a single free block covering the managed space. -/
def InitializeManager (addrSpaceStart addrSpaceEnd : Nat) : List MemBlock :=
  [mkBlock addrSpaceStart (u32 (addrSpaceEnd - addrSpaceStart) / pageSize) 0 stateFree permNone]

/-- The claimed invariant, executably: the list is a sorted, gapless,
non-overlapping cover of `[spaceStart, spaceEnd)` in list order. -/
def IsSortedGaplessCover (spaceStart spaceEnd : Nat) : List MemBlock → Bool :=
  go spaceStart
where
  go : Nat → List MemBlock → Bool
  | cur, [] => cur = spaceEnd
  | cur, b :: rest => b.baseAddr = cur && go (u32 (b.baseAddr + GetSize b)) rest

def NoAdjacentGo (prev : MemBlock) : List MemBlock → Bool
  | [] => true
  | b :: rest => !HasSameProperties prev b && NoAdjacentGo b rest

/-- The claimed invariant, executably: no two adjacent blocks share identical
(state, permission, tag). -/
def NoAdjacentSameProperties : List MemBlock → Bool
  | [] => true
  | a :: rest => NoAdjacentGo a rest

end KMemoryBlockManager

/-- A concrete ready queue: the spec's example of ready threads with
priorities 5, 5, 3 and 7 (two threads sharing priority 5, the
earlier-enqueued one at the head of its bucket). -/
def c3WitnessQueue : List (List ThreadManager.SThread) :=
  [[], [], [], [⟨30, 3, true, ThreadStatus.Ready⟩], [],
   [⟨10, 5, true, ThreadStatus.Ready⟩, ⟨11, 5, true, ThreadStatus.Ready⟩], [],
   [⟨40, 7, true, ThreadStatus.Ready⟩]]

/-- A concrete thread world in which thread 0 is already `Ready`. -/
def c10WitnessState : KThreadWorld.TWState :=
  { threads := fun _ => ⟨ThreadStatus.Ready, 5, 0, false⟩
    readyQueue := fun _ => [] }

/-! ## Theorems -/

/-- Reachability invariant for the reference count: either the object is live
and never destroyed, or the count is zero and it was destroyed exactly once. -/
theorem KAutoObject.run_inv (ops : List KAutoObject.RefOp) (s : KAutoObject.RefState)
    (h : (s.refCount ≠ 0 ∧ s.destroyCount = 0) ∨ (s.refCount = 0 ∧ s.destroyCount = 1)) :
    ((KAutoObject.run ops s).refCount ≠ 0 ∧ (KAutoObject.run ops s).destroyCount = 0)
    ∨ ((KAutoObject.run ops s).refCount = 0 ∧ (KAutoObject.run ops s).destroyCount = 1) := by
  induction ops generalizing s with
  | nil => exact h
  | cons op rest ih =>
    apply ih
    cases op with
    | opn =>
      simp only [KAutoObject.step, KAutoObject.Open]
      split <;> simp_all
    | cls =>
      simp only [KAutoObject.step, KAutoObject.Close]
      rcases h with ⟨h1, h2⟩ | ⟨h1, h2⟩
      · split
        · omega
        · split <;> simp_all <;> omega
      · simp_all

namespace KSynchronizationObject

theorem select_cons_qfalse {q : Waiter → Bool} {w : Waiter} {rest : List Waiter}
    (hq : q w = false) :
    SelectReadyCandidate q (w :: rest) = SelectReadyCandidate q rest := by
  simp only [SelectReadyCandidate]
  cases hsel : SelectReadyCandidate q rest <;> simp [hq]

theorem select_cons_qtrue_none {q : Waiter → Bool} {w : Waiter} {rest : List Waiter}
    (hq : q w = true) (hsel : SelectReadyCandidate q rest = none) :
    SelectReadyCandidate q (w :: rest) = some w := by
  simp only [SelectReadyCandidate, hsel, hq]
  rfl

theorem select_cons_qtrue_some {q : Waiter → Bool} {w c' : Waiter} {rest : List Waiter}
    (hq : q w = true) (hsel : SelectReadyCandidate q rest = some c') :
    SelectReadyCandidate q (w :: rest) =
      (if c'.currentPriority < w.currentPriority then some c' else some w) := by
  simp only [SelectReadyCandidate, hsel, hq]
  rfl

theorem ghprtGo_cons (sw : Nat → Waiter → Bool) (self : Nat) (w : Waiter)
    (rest : List Waiter) (cand : Option Waiter) (candPrio : Nat) :
    GetHighestPriorityReadyThreadGo sw self (w :: rest) cand candPrio =
      if (decide (candPrio ≤ w.currentPriority) || sw self w) = true then
        GetHighestPriorityReadyThreadGo sw self rest cand candPrio
      else if (if w.status = ThreadStatus.WaitSynchAll then
          w.waitObjects.all (fun o => !sw o w) else true) = true then
        GetHighestPriorityReadyThreadGo sw self rest (some w) w.currentPriority
      else
        GetHighestPriorityReadyThreadGo sw self rest cand candPrio := by
  conv_lhs => rw [GetHighestPriorityReadyThreadGo]

/-- With an incumbent candidate, the scan keeps it unless a qualifying waiter
of strictly lower priority appears; the result is the merge of the incumbent
with the selection over the rest of the list. -/
theorem ghprtGo_some (sw : Nat → Waiter → Bool) (self : Nat) :
    ∀ (ws : List Waiter) (c : Waiter),
      GetHighestPriorityReadyThreadGo sw self ws (some c) c.currentPriority =
        some (mergeCandidate c
          (SelectReadyCandidate (IsReadyCandidate sw self) ws)) := by
  intro ws
  induction ws with
  | nil => intro c; rfl
  | cons w rest ih =>
    intro c
    rw [ghprtGo_cons]
    by_cases hsw : sw self w = true
    · have hq : IsReadyCandidate sw self w = false := by
        simp [IsReadyCandidate, hsw]
      rw [if_pos (by simp [hsw]), select_cons_qfalse hq]
      exact ih c
    · rw [Bool.not_eq_true] at hsw
      by_cases hready : (if w.status = ThreadStatus.WaitSynchAll then
          w.waitObjects.all (fun o => !sw o w) else true) = true
      · have hq : IsReadyCandidate sw self w = true := by
          simp only [IsReadyCandidate, hsw]
          simpa using hready
        by_cases hp : c.currentPriority ≤ w.currentPriority
        · rw [if_pos (by simp [hsw, hp]), ih c]
          cases hsel : SelectReadyCandidate (IsReadyCandidate sw self) rest with
          | none =>
            rw [select_cons_qtrue_none hq hsel]
            simp only [mergeCandidate]
            rw [if_neg (by omega)]
          | some c' =>
            rw [select_cons_qtrue_some hq hsel]
            by_cases hcw : c'.currentPriority < w.currentPriority
            · rw [if_pos hcw]
            · rw [if_neg hcw]
              simp only [mergeCandidate]
              rw [if_neg (by omega), if_neg (by omega)]
        · rw [if_neg (by simp [hsw]; omega), if_pos hready, ih w]
          cases hsel : SelectReadyCandidate (IsReadyCandidate sw self) rest with
          | none =>
            rw [select_cons_qtrue_none hq hsel]
            simp only [mergeCandidate]
            rw [if_pos (by omega)]
          | some c' =>
            rw [select_cons_qtrue_some hq hsel]
            by_cases hcw : c'.currentPriority < w.currentPriority
            · rw [if_pos hcw]
              simp only [mergeCandidate]
              rw [if_pos hcw, if_pos (by omega)]
            · rw [if_neg hcw]
              simp only [mergeCandidate]
              rw [if_neg hcw, if_pos (by omega)]
      · have hq : IsReadyCandidate sw self w = false := by
          simp only [IsReadyCandidate, hsw]
          simpa using hready
        rw [select_cons_qfalse hq]
        by_cases hp : c.currentPriority ≤ w.currentPriority
        · rw [if_pos (by simp [hsw, hp])]
          exact ih c
        · rw [if_neg (by simp [hsw]; omega), if_neg hready]
          exact ih c

/-- With no incumbent and the initial bound `ThreadPrioLowest + 1`, the scan
computes exactly the specification-side selection, provided every waiter
priority is within the legal range. -/
theorem ghprt_eq_select (sw : Nat → Waiter → Bool) (self : Nat) :
    ∀ ws : List Waiter, (∀ w ∈ ws, w.currentPriority ≤ threadPrioLowest) →
      GetHighestPriorityReadyThread sw self ws =
        SelectReadyCandidate (IsReadyCandidate sw self) ws := by
  intro ws
  induction ws with
  | nil => intro _; rfl
  | cons w rest ih =>
    intro hb
    have hbw : w.currentPriority ≤ threadPrioLowest := hb w (by simp)
    have hbr : ∀ x ∈ rest, x.currentPriority ≤ threadPrioLowest := by
      intro x hx; exact hb x (by simp [hx])
    simp only [GetHighestPriorityReadyThread] at *
    rw [ghprtGo_cons]
    have hple : ¬ threadPrioLowest + 1 ≤ w.currentPriority := by
      simp only [threadPrioLowest] at hbw ⊢
      omega
    by_cases hsw : sw self w = true
    · have hq : IsReadyCandidate sw self w = false := by simp [IsReadyCandidate, hsw]
      rw [if_pos (by simp [hsw]), select_cons_qfalse hq]
      exact ih hbr
    · rw [Bool.not_eq_true] at hsw
      by_cases hready : (if w.status = ThreadStatus.WaitSynchAll then
          w.waitObjects.all (fun o => !sw o w) else true) = true
      · have hq : IsReadyCandidate sw self w = true := by
          simp only [IsReadyCandidate, hsw]
          simpa using hready
        rw [if_neg (by simp [hsw, hple]), if_pos hready, ghprtGo_some sw self rest w]
        cases hsel : SelectReadyCandidate (IsReadyCandidate sw self) rest with
        | none =>
          rw [select_cons_qtrue_none hq hsel]
          rfl
        | some c' =>
          rw [select_cons_qtrue_some hq hsel]
          by_cases hcw : c'.currentPriority < w.currentPriority
          · rw [if_pos hcw]
            simp only [mergeCandidate]
            rw [if_pos hcw]
          · rw [if_neg hcw]
            simp only [mergeCandidate]
            rw [if_neg hcw]
      · have hq : IsReadyCandidate sw self w = false := by
          simp only [IsReadyCandidate, hsw]
          simpa using hready
        rw [if_neg (by simp [hsw, hple]), if_neg hready, select_cons_qfalse hq]
        exact ih hbr

/-- `SelectReadyCandidate` returns `none` exactly when no waiter qualifies. -/
theorem select_eq_none (q : Waiter → Bool) :
    ∀ ws : List Waiter, SelectReadyCandidate q ws = none ↔ ∀ w ∈ ws, q w = false := by
  intro ws
  induction ws with
  | nil => simp [SelectReadyCandidate]
  | cons w rest ih =>
    by_cases hq : q w = true
    · cases hsel : SelectReadyCandidate q rest with
      | none =>
        rw [select_cons_qtrue_none hq hsel]
        simp [hq]
      | some c' =>
        rw [select_cons_qtrue_some hq hsel]
        constructor
        · intro h
          by_cases hcw : c'.currentPriority < w.currentPriority
          · rw [if_pos hcw] at h; cases h
          · rw [if_neg hcw] at h; cases h
        · intro h
          rw [h w (by simp)] at hq
          cases hq
    · rw [Bool.not_eq_true] at hq
      rw [select_cons_qfalse hq, ih]
      constructor
      · intro h x hx
        rcases List.mem_cons.mp hx with rfl | hxr
        · exact hq
        · exact h x hxr
      · intro h x hx
        exact h x (by simp [hx])

/-- A returned candidate is a qualifying member of the list. -/
theorem select_mem (q : Waiter → Bool) :
    ∀ (ws : List Waiter) (c : Waiter), SelectReadyCandidate q ws = some c →
      c ∈ ws ∧ q c = true := by
  intro ws
  induction ws with
  | nil => intro c h; cases h
  | cons w rest ih =>
    intro c h
    by_cases hq : q w = true
    · cases hsel : SelectReadyCandidate q rest with
      | none =>
        rw [select_cons_qtrue_none hq hsel] at h
        cases h
        exact ⟨by simp, hq⟩
      | some c' =>
        rw [select_cons_qtrue_some hq hsel] at h
        by_cases hcw : c'.currentPriority < w.currentPriority
        · rw [if_pos hcw] at h
          injection h with hinj
          obtain ⟨hm, hqc⟩ := ih c' hsel
          rw [← hinj]
          exact ⟨by simp [hm], hqc⟩
        · rw [if_neg hcw] at h
          cases h
          exact ⟨by simp, hq⟩
    · rw [Bool.not_eq_true] at hq
      rw [select_cons_qfalse hq] at h
      obtain ⟨hm, hqc⟩ := ih c h
      exact ⟨by simp [hm], hqc⟩

/-- A returned candidate has minimal priority among qualifying waiters. -/
theorem select_min (q : Waiter → Bool) :
    ∀ (ws : List Waiter) (c : Waiter), SelectReadyCandidate q ws = some c →
      ∀ w ∈ ws, q w = true → c.currentPriority ≤ w.currentPriority := by
  intro ws
  induction ws with
  | nil => intro c h; cases h
  | cons w rest ih =>
    intro c h x hx hqx
    by_cases hq : q w = true
    · cases hsel : SelectReadyCandidate q rest with
      | none =>
        rw [select_cons_qtrue_none hq hsel] at h
        cases h
        rcases List.mem_cons.mp hx with rfl | hxr
        · omega
        · have := (select_eq_none q rest).mp hsel x hxr
          rw [this] at hqx
          cases hqx
      | some c' =>
        rw [select_cons_qtrue_some hq hsel] at h
        by_cases hcw : c'.currentPriority < w.currentPriority
        · rw [if_pos hcw] at h
          injection h with hinj
          subst hinj
          rcases List.mem_cons.mp hx with rfl | hxr
          · omega
          · exact ih c' hsel x hxr hqx
        · rw [if_neg hcw] at h
          injection h with hinj
          subst hinj
          rcases List.mem_cons.mp hx with rfl | hxr
          · omega
          · have := ih c' hsel x hxr hqx
            omega
    · rw [Bool.not_eq_true] at hq
      rw [select_cons_qfalse hq] at h
      rcases List.mem_cons.mp hx with rfl | hxr
      · rw [hq] at hqx; cases hqx
      · exact ih c h x hxr hqx

/-- FIFO tie-break: every qualifying waiter before the returned candidate in
list order has strictly greater priority (so among equal-priority qualifiers
the earliest-inserted one is selected). -/
theorem select_earliest (q : Waiter → Bool) :
    ∀ (ws : List Waiter) (c : Waiter), SelectReadyCandidate q ws = some c →
      ∃ l1 l2, ws = l1 ++ c :: l2
        ∧ ∀ w ∈ l1, q w = true → c.currentPriority < w.currentPriority := by
  intro ws
  induction ws with
  | nil => intro c h; cases h
  | cons w rest ih =>
    intro c h
    by_cases hq : q w = true
    · cases hsel : SelectReadyCandidate q rest with
      | none =>
        rw [select_cons_qtrue_none hq hsel] at h
        cases h
        exact ⟨[], rest, rfl, by simp⟩
      | some c' =>
        rw [select_cons_qtrue_some hq hsel] at h
        by_cases hcw : c'.currentPriority < w.currentPriority
        · rw [if_pos hcw] at h
          injection h with hinj
          subst hinj
          obtain ⟨l1, l2, heq, hlt⟩ := ih c' hsel
          refine ⟨w :: l1, l2, by simp [heq], ?_⟩
          intro x hx hqx
          rcases List.mem_cons.mp hx with rfl | hxr
          · omega
          · exact hlt x hxr hqx
        · rw [if_neg hcw] at h
          injection h with hinj
          subst hinj
          exact ⟨[], rest, rfl, by simp⟩
    · rw [Bool.not_eq_true] at hq
      rw [select_cons_qfalse hq] at h
      obtain ⟨l1, l2, heq, hlt⟩ := ih c h
      refine ⟨w :: l1, l2, by simp [heq], ?_⟩
      intro x hx hqx
      rcases List.mem_cons.mp hx with rfl | hxr
      · rw [hq] at hqx; cases hqx
      · exact hlt x hxr hqx

end KSynchronizationObject

/-- **C2**: each iteration of `WakeupAllWaitingThreads` wakes the thread
returned by `GetHighestPriorityReadyThread`; over any waiter list with legal
priorities, that selection is exactly: the waiter with the lowest current
priority among those whose `ShouldWait` (on the signaled object) is false —
a wait-all sleeper qualifying only when every one of its wait objects has
`ShouldWait` false — with ties broken in favor of the waiter inserted
earliest in the list; and when no waiter qualifies, nothing is selected. -/
theorem c2_wakeup_selects_highest_priority_ready :
    ∀ (shouldWait : Nat → KSynchronizationObject.Waiter → Bool) (self : Nat)
      (ws : List KSynchronizationObject.Waiter),
      (∀ w ∈ ws, w.currentPriority ≤ threadPrioLowest) →
      (KSynchronizationObject.GetHighestPriorityReadyThread shouldWait self ws =
        KSynchronizationObject.SelectReadyCandidate
          (KSynchronizationObject.IsReadyCandidate shouldWait self) ws)
      ∧ (KSynchronizationObject.GetHighestPriorityReadyThread shouldWait self ws = none →
          ∀ w ∈ ws, KSynchronizationObject.IsReadyCandidate shouldWait self w = false)
      ∧ (∀ c, KSynchronizationObject.GetHighestPriorityReadyThread shouldWait self ws = some c →
          c ∈ ws
          ∧ KSynchronizationObject.IsReadyCandidate shouldWait self c = true
          ∧ (∀ w ∈ ws, KSynchronizationObject.IsReadyCandidate shouldWait self w = true →
              c.currentPriority ≤ w.currentPriority)
          ∧ ∃ l1 l2, ws = l1 ++ c :: l2
              ∧ ∀ w ∈ l1, KSynchronizationObject.IsReadyCandidate shouldWait self w = true →
                  c.currentPriority < w.currentPriority) := by
  intro sw self ws hb
  have heq := KSynchronizationObject.ghprt_eq_select sw self ws hb
  refine ⟨heq, ?_, ?_⟩
  · intro h
    rw [heq] at h
    exact (KSynchronizationObject.select_eq_none _ ws).mp h
  · intro c h
    rw [heq] at h
    obtain ⟨hm, hq⟩ := KSynchronizationObject.select_mem _ ws c h
    exact ⟨hm, hq, KSynchronizationObject.select_min _ ws c h,
      KSynchronizationObject.select_earliest _ ws c h⟩

/-- Witness for the hypotheses of `c2_wakeup_selects_highest_priority_ready`
at a concrete input: three wait-any waiters of priorities 5, 3, 3 on one
always-ready object; the first priority-3 waiter (tid 2) is selected. -/
theorem c2_wakeup_selects_highest_priority_ready_witness :
    (∀ w ∈ [(⟨1, 5, ThreadStatus.WaitSynchAny, [0]⟩ : KSynchronizationObject.Waiter),
            ⟨2, 3, ThreadStatus.WaitSynchAny, [0]⟩,
            ⟨3, 3, ThreadStatus.WaitSynchAny, [0]⟩],
        w.currentPriority ≤ threadPrioLowest)
    ∧ KSynchronizationObject.GetHighestPriorityReadyThread (fun _ _ => false) 0
        [⟨1, 5, ThreadStatus.WaitSynchAny, [0]⟩,
         ⟨2, 3, ThreadStatus.WaitSynchAny, [0]⟩,
         ⟨3, 3, ThreadStatus.WaitSynchAny, [0]⟩] =
      KSynchronizationObject.SelectReadyCandidate
        (KSynchronizationObject.IsReadyCandidate (fun _ _ => false) 0)
        [⟨1, 5, ThreadStatus.WaitSynchAny, [0]⟩,
         ⟨2, 3, ThreadStatus.WaitSynchAny, [0]⟩,
         ⟨3, 3, ThreadStatus.WaitSynchAny, [0]⟩] :=
  ⟨by decide,
   (c2_wakeup_selects_highest_priority_ready (fun _ _ => false) 0
     [⟨1, 5, ThreadStatus.WaitSynchAny, [0]⟩,
      ⟨2, 3, ThreadStatus.WaitSynchAny, [0]⟩,
      ⟨3, 3, ThreadStatus.WaitSynchAny, [0]⟩] (by decide)).1⟩

namespace ThreadManager

/-- `popFirst` fails exactly on an all-empty queue. -/
theorem popFirst_eq_none_iff (q : List (List SThread)) :
    popFirst q = none ↔ ∀ b ∈ q, b = [] := by
  induction q with
  | nil => simp [popFirst]
  | cons b rest ih =>
    match b with
    | t :: ts => simp [popFirst]
    | [] =>
      constructor
      · intro h x hx
        rcases List.mem_cons.mp hx with rfl | hx
        · rfl
        · refine ih.mp ?_ x hx
          cases hrr : popFirst rest with
          | none => rfl
          | some p =>
            obtain ⟨u, rest'⟩ := p
            simp only [popFirst, hrr] at h
            cases h
      · intro hall
        have hr : popFirst rest = none := ih.mpr (fun x hx => hall x (by simp [hx]))
        simp [popFirst, hr]

/-- A successful `popFirst` structurally: a run of empty buckets, then the
popped thread at the head of the first non-empty one. -/
theorem popFirst_spec (q : List (List SThread)) : ∀ (t : SThread)
    (q' : List (List SThread)), popFirst q = some (t, q') →
    ∃ pre ts suf, q = pre ++ (t :: ts) :: suf ∧ (∀ b ∈ pre, b = ([] : List SThread))
      ∧ q' = pre ++ ts :: suf := by
  induction q with
  | nil => intro t q' h; cases h
  | cons b rest ih =>
    intro t q' h
    match b with
    | x :: xs =>
      simp only [popFirst] at h
      injection h with h1
      rw [Prod.mk.injEq] at h1
      obtain ⟨hx, hq⟩ := h1
      subst hq
      exact ⟨[], xs, rest, by simp [hx], by simp, rfl⟩
    | [] =>
      simp only [popFirst] at h
      cases hr : popFirst rest with
      | none => rw [hr] at h; cases h
      | some p =>
        rw [hr] at h
        obtain ⟨u, rest'⟩ := p
        injection h with h1
        rw [Prod.mk.injEq] at h1
        obtain ⟨hx, hq⟩ := h1
        subst hq
        obtain ⟨pre, ts, suf, heq, hpre, hq'⟩ := ih u rest' hr
        rw [← hx]
        refine ⟨[] :: pre, ts, suf, by simp [heq], ?_, by simp [hq']⟩
        intro x hx2
        rcases List.mem_cons.mp hx2 with rfl | hxp
        · rfl
        · exact hpre x hxp

/-- The popped thread is one of the queued threads. -/
theorem popFirst_mem (q : List (List SThread)) (t : SThread)
    (q' : List (List SThread)) (h : popFirst q = some (t, q')) :
    t ∈ queueThreads q := by
  obtain ⟨pre, ts, suf, heq, _, _⟩ := popFirst_spec q t q' h
  subst heq
  simp [queueThreads]

theorem runningLoop_of_none (cur : SThread) (q : List (List SThread))
    (uns : List SThread) (h : popFirstBetter cur.currentPriority q = none) :
    runningLoop cur q uns = (cur, q, uns) := by
  unfold runningLoop
  split <;> simp_all

theorem idleLoop_of_none (q : List (List SThread)) (uns : List SThread)
    (h : popFirst q = none) :
    idleLoop q uns = (none, q, uns) := by
  unfold idleLoop
  split <;> simp_all

theorem idleLoop_of_some_sched (q : List (List SThread)) (t : SThread)
    (q' : List (List SThread)) (uns : List SThread)
    (h : popFirst q = some (t, q')) (hs : t.canSchedule = true) :
    idleLoop q uns = (some t, q', uns) := by
  unfold idleLoop
  split <;> simp_all

end ThreadManager

/-- **C3**: `PopNextReadyThread` keeps the current thread when it is still
`Running` and no strictly better-priority thread is queued (equal priority
never preempts: only buckets strictly below the current priority are
consulted); with no running current thread it pops the head of the first
non-empty bucket, which on a well-formed queue is a queued thread of minimal
numeric priority and the head of its own priority's bucket — the
earliest-enqueued thread of that priority, since `push_back` appends; an
all-empty queue yields no thread. -/
theorem c3_pop_next_ready_thread :
    (∀ (cur : ThreadManager.SThread) (q : List (List ThreadManager.SThread)),
      cur.status = ThreadStatus.Running →
      (∀ b ∈ q.take cur.currentPriority, b = ([] : List ThreadManager.SThread)) →
      ThreadManager.PopNextReadyThread (some cur) q = (some cur, q))
    ∧ (∀ (current : Option ThreadManager.SThread) (q : List (List ThreadManager.SThread)),
      (current = none ∨ ∃ cur, current = some cur ∧ cur.status ≠ ThreadStatus.Running) →
      ThreadManager.WellFormedQueue q →
      ((ThreadManager.PopNextReadyThread current q).1 = none →
        ∀ b ∈ q, b = ([] : List ThreadManager.SThread))
      ∧ (∀ t, (ThreadManager.PopNextReadyThread current q).1 = some t →
          t ∈ ThreadManager.queueThreads q
          ∧ (∀ u ∈ ThreadManager.queueThreads q, t.currentPriority ≤ u.currentPriority)
          ∧ ∃ ts, q.getD t.currentPriority [] = t :: ts)) := by
  constructor
  · intro cur q hrun hempty
    have hpop : ThreadManager.popFirstBetter cur.currentPriority q = none := by
      unfold ThreadManager.popFirstBetter
      have : ThreadManager.popFirst (q.take cur.currentPriority) = none := by
        rw [ThreadManager.popFirst_eq_none_iff]
        exact hempty
      rw [this]
    simp only [ThreadManager.PopNextReadyThread, hrun, if_pos rfl]
    rw [ThreadManager.runningLoop_of_none cur q [] hpop]
    simp [ThreadManager.reinsertUnscheduled]
  · intro current q hcur hwf
    have hsched_of_mem : ∀ u ∈ ThreadManager.queueThreads q, u.canSchedule = true := by
      intro u hu
      simp only [ThreadManager.queueThreads] at hu
      obtain ⟨b, hb, hub⟩ := List.mem_join.mp hu
      obtain ⟨i, hi, rfl⟩ := List.mem_iff_getElem.mp hb
      have hgd : q.getD i [] = q[i] := List.getD_eq_getElem q [] hi
      exact (hwf i hi u (by rw [hgd]; exact hub)).2
    have hred : ThreadManager.PopNextReadyThread current q =
        ((ThreadManager.idleLoop q []).1,
          ThreadManager.reinsertUnscheduled (ThreadManager.idleLoop q []).2.1
            (ThreadManager.idleLoop q []).2.2) := by
      rcases hcur with rfl | ⟨cur, rfl, hst⟩
      · rfl
      · simp only [ThreadManager.PopNextReadyThread]
        rw [if_neg hst]
    constructor
    · intro hnone
      rw [hred] at hnone
      cases hpf : ThreadManager.popFirst q with
      | none => exact (ThreadManager.popFirst_eq_none_iff q).mp hpf
      | some p =>
        obtain ⟨t0, q'⟩ := p
        have hs0 : t0.canSchedule = true :=
          hsched_of_mem t0 (ThreadManager.popFirst_mem q t0 q' hpf)
        rw [ThreadManager.idleLoop_of_some_sched q t0 q' [] hpf hs0] at hnone
        cases hnone
    · intro t ht
      rw [hred] at ht
      cases hpf : ThreadManager.popFirst q with
      | none =>
        rw [ThreadManager.idleLoop_of_none q [] hpf] at ht
        cases ht
      | some p =>
        obtain ⟨t0, q'⟩ := p
        have hs0 : t0.canSchedule = true :=
          hsched_of_mem t0 (ThreadManager.popFirst_mem q t0 q' hpf)
        rw [ThreadManager.idleLoop_of_some_sched q t0 q' [] hpf hs0] at ht
        replace ht : t0 = t := by injection ht
        rw [← ht]
        obtain ⟨pre, ts, suf, heq, hpre, hq'⟩ := ThreadManager.popFirst_spec q t0 q' hpf
        have hlen : pre.length < q.length := by
          subst heq
          simp only [List.length_append, List.length_cons]
          omega
        have hgetpre : q.getD pre.length [] = t0 :: ts := by
          subst heq
          rw [List.getD_append_right pre ((t0 :: ts) :: suf) [] pre.length (le_refl pre.length)]
          simp
        have htp : t0.currentPriority = pre.length :=
          (hwf pre.length hlen t0 (by rw [hgetpre]; simp)).1
        refine ⟨?_, ?_, ⟨ts, by rw [htp]; exact hgetpre⟩⟩
        · subst heq; simp [ThreadManager.queueThreads]
        · intro u hu
          simp only [ThreadManager.queueThreads] at hu
          obtain ⟨b, hb, hub⟩ := List.mem_join.mp hu
          obtain ⟨i, hi, rfl⟩ := List.mem_iff_getElem.mp hb
          have hgd : q.getD i [] = q[i] := List.getD_eq_getElem q [] hi
          have hup : u.currentPriority = i := (hwf i hi u (by rw [hgd]; exact hub)).1
          have hge : pre.length ≤ i := by
            by_contra hlt
            push_neg at hlt
            have hqi : q[i] ∈ pre := by
              subst heq
              rw [List.getElem_append_left (by omega)]
              exact List.getElem_mem _
            have := hpre _ hqi
            rw [this] at hub
            cases hub
          omega

/-- Witness for the hypotheses of `c3_pop_next_ready_thread` at concrete
inputs: a running priority-2 thread is kept; from idle, the selected thread
is a minimal-priority queued thread at the head of its bucket. -/
theorem c3_pop_next_ready_thread_witness :
    ThreadManager.PopNextReadyThread
        (some ⟨1, 2, true, ThreadStatus.Running⟩) c3WitnessQueue
      = (some ⟨1, 2, true, ThreadStatus.Running⟩, c3WitnessQueue)
    ∧ ((ThreadManager.PopNextReadyThread (none : Option ThreadManager.SThread)
          c3WitnessQueue).1 = some ⟨30, 3, true, ThreadStatus.Ready⟩ →
        (⟨30, 3, true, ThreadStatus.Ready⟩ : ThreadManager.SThread)
            ∈ ThreadManager.queueThreads c3WitnessQueue
        ∧ (∀ u ∈ ThreadManager.queueThreads c3WitnessQueue, 3 ≤ u.currentPriority)
        ∧ ∃ ts, c3WitnessQueue.getD 3 [] = ⟨30, 3, true, ThreadStatus.Ready⟩ :: ts) := by
  constructor
  · exact c3_pop_next_ready_thread.1 ⟨1, 2, true, ThreadStatus.Running⟩ c3WitnessQueue
      (by decide) (by decide)
  · intro h
    exact (c3_pop_next_ready_thread.2 none c3WitnessQueue (Or.inl rfl) (by decide)).2
      ⟨30, 3, true, ThreadStatus.Ready⟩ h

theorem foldl_min_le_helper (f : Nat → Nat) :
    ∀ (l : List Nat) (a : Nat),
      (l.foldl (fun b x => if f x < b then f x else b) a) ≤ a
      ∧ ∀ x ∈ l, (l.foldl (fun b x => if f x < b then f x else b) a) ≤ f x := by
  intro l
  induction l with
  | nil => intro a; exact ⟨le_refl a, by simp⟩
  | cons t l ih =>
    intro a
    simp only [List.foldl_cons]
    obtain ⟨h1, h2⟩ := ih (if f t < a then f t else a)
    constructor
    · refine le_trans h1 ?_
      split <;> omega
    · intro x hx
      rcases List.mem_cons.mp hx with rfl | hxl
      · refine le_trans h1 ?_
        split <;> omega
      · exact h2 x hxl

theorem foldl_min_mem_helper (f : Nat → Nat) :
    ∀ (l : List Nat) (a : Nat),
      (l.foldl (fun b x => if f x < b then f x else b) a) = a
      ∨ ∃ x ∈ l, (l.foldl (fun b x => if f x < b then f x else b) a) = f x := by
  intro l
  induction l with
  | nil => intro a; exact Or.inl rfl
  | cons t l ih =>
    intro a
    simp only [List.foldl_cons]
    rcases ih (if f t < a then f t else a) with h | ⟨x, hx, hfx⟩
    · by_cases hc : f t < a
      · right
        exact ⟨t, by simp, by rw [h, if_pos hc]⟩
      · left
        rw [h, if_neg hc]
    · right
      exact ⟨x, by simp [hx], hfx⟩


namespace KHandleTable

theorem getD_set_of_ne {α : Type} (l : List α) (i j : Nat) (x d : α) (h : i ≠ j) :
    (l.set i x).getD j d = l.getD j d := by
  rw [List.getD_eq_getElem?_getD, List.getD_eq_getElem?_getD, List.getElem?_set_ne h]

theorem getD_set_self {α : Type} (l : List α) (i : Nat) (x d : α) (h : i < l.length) :
    (l.set i x).getD i d = x := by
  rw [List.getD_eq_getElem?_getD, List.getElem?_set_self']
  simp [List.getElem?_eq_getElem h]

theorem decodeS16_encodeS16 (v : Int) (h1 : -32768 ≤ v) (h2 : v < 32768) :
    decodeS16 (encodeS16 v) = v := by
  unfold decodeS16 encodeS16
  split <;> omega

/-- A chain only depends on the entries at its own indices. -/
theorem chainOk_congr {e e' : List Nat} {hd : Int} {fl : List Nat}
    (hc : ChainOk e hd fl) (hlen : e'.length = e.length)
    (hagree : ∀ i ∈ fl, e'.getD i 0 = e.getD i 0) : ChainOk e' hd fl := by
  induction hc with
  | nil => exact .nil
  | cons hi hdec _ ih =>
    exact .cons (by omega) (by rw [hagree _ (by simp)]; exact hdec)
      (ih fun j hj => hagree j (by simp [hj]))

theorem chainOk_mem_lt {e : List Nat} {hd : Int} {fl : List Nat}
    (hc : ChainOk e hd fl) : ∀ i ∈ fl, i < e.length := by
  induction hc with
  | nil => simp
  | cons hi _ _ ih =>
    intro j hj
    rcases List.mem_cons.mp hj with rfl | hjr
    · exact hi
    · exact ih j hjr

theorem chainOk_head_range {e : List Nat} {hd : Int} {fl : List Nat}
    (hc : ChainOk e hd fl) : hd = -1 ∨ (0 ≤ hd ∧ hd < e.length) := by
  cases hc with
  | nil => exact Or.inl rfl
  | cons hi _ _ => right; constructor <;> omega

theorem getD_map_range (ts n : Nat) (f : Nat → Nat) (hn : n < ts) :
    ((List.range ts).map f).getD n 0 = f n := by
  rw [List.getD_eq_getElem _ _ (by simpa using hn)]
  simp

/-- The chain built by `Initialize`: each slot points at its predecessor. -/
theorem chainOk_init (ts : Nat) (hts : ts ≤ 1024) :
    ∀ n, n ≤ ts →
      ChainOk ((List.range ts).map (fun (i : Nat) => encodeS16 ((i : Int) - 1)))
        ((n : Int) - 1) (List.range n).reverse := by
  intro n
  induction n with
  | zero =>
    intro _
    show ChainOk _ ((0 : Int) - 1) _
    norm_num
    exact .nil
  | succ n ih =>
    intro hn
    have hrev : (List.range (n + 1)).reverse = n :: (List.range n).reverse := by
      rw [List.range_succ]
      simp
    rw [hrev]
    have hcast : ((n + 1 : Nat) : Int) - 1 = ((n : Nat) : Int) := by push_cast; omega
    rw [hcast]
    refine ChainOk.cons (by simpa using (by omega : n < ts)) ?_ (ih (by omega))
    rw [getD_map_range ts n _ (by omega), decodeS16_encodeS16 _ (by omega) (by omega)]

theorem getD_replicate_none (ts i : Nat) :
    (List.replicate ts (none : Option KObj)).getD i none = none := by
  by_cases hi : i < ts
  · rw [List.getD_eq_getElem _ _ (by simpa using hi)]
    simp
  · rw [List.getD_eq_default _ _ (by simpa using hi)]

/-- A fresh table satisfies the invariant. -/
theorem tableInv_init (size : Nat) (hsz : size ≤ 1024) : TableInv (Initialize size) := by
  set ts := if size = 0 then 1024 else size with hts
  have htsle : ts ≤ 1024 := by
    rw [hts]; split <;> omega
  refine ⟨(List.range ts).reverse, ?_, ?_, ?_, ?_, ?_, ?_, ?_, ?_, ?_⟩
  · have := chainOk_init ts htsle ts (le_refl ts)
    simpa [Initialize, hts] using this
  · simpa using List.nodup_range ts
  · intro i _
    exact getD_replicate_none ts i
  · simp [Initialize]
  · simp [Initialize]
  · simp [Initialize]
  · simp [Initialize]
  · simp [Initialize]
  · simpa [Initialize] using htsle

/-- Unfolding a successful table lookup into its five validity conditions. -/
theorem getObjectImpl_eq_some (s : HTState) (h : Nat) (o : KObj) :
    GetObjectImpl s h = some o ↔
      handleReserved h = 0 ∧ ¬ h % 4294967296 = 0 ∧ ¬ handleLinearId h = 0
      ∧ handleIndex h < s.tableSize
      ∧ s.objects.getD (handleIndex h) none = some o
      ∧ s.entryInfos.getD (handleIndex h) 0 = handleLinearId h := by
  unfold GetObjectImpl IsValidHandle
  by_cases h1 : handleReserved h = 0
  case neg => simp [h1]
  case pos =>
    rw [if_neg (by simpa using h1)]
    by_cases h2 : h % 4294967296 = 0
    · simp [h1, h2]
    · by_cases h3 : handleLinearId h = 0
      · simp [h1, h2, h3]
      · by_cases h4 : s.tableSize ≤ handleIndex h
        · have h4' : ¬ handleIndex h < s.tableSize := by omega
          simp [h1, h2, h3, h4, h4']
        · have h4' : handleIndex h < s.tableSize := by omega
          cases hobj : s.objects.getD (handleIndex h) none with
          | none => simp [h1, h2, h3, h4, h4', hobj]
          | some o' =>
            simp [h1, h2, h3, h4, h4', hobj]
            exact and_comm

/-- A non-empty free chain: head index, bound, and the chain for the rest. -/
theorem chainOk_cases {e : List Nat} {hd : Int} {fl : List Nat}
    (hc : ChainOk e hd fl) :
    (hd = -1 ∧ fl = []) ∨
    ∃ (i : Nat) (rest : List Nat), hd = (i : Int) ∧ fl = i :: rest ∧ i < e.length
      ∧ ChainOk e (decodeS16 (e.getD i 0)) rest := by
  cases hc with
  | nil => exact Or.inl ⟨rfl, rfl⟩
  | cons hi hdec hrest => exact Or.inr ⟨_, _, rfl, rfl, hi, hdec ▸ hrest⟩

/-- Field-level description of a successful `Add`. -/
theorem add_fields (s : HTState) (obj : KObj) (h' : Nat) (s' : HTState)
    (hadd : Add s obj = some (h', s')) :
    s.count < s.tableSize
    ∧ s'.tableSize = s.tableSize
    ∧ s'.objects = s.objects.set s.freeHeadIndex.toNat (some obj)
    ∧ s'.entryInfos = s.entryInfos.set s.freeHeadIndex.toNat s.nextLinearId
    ∧ h' = EncodeHandle s.freeHeadIndex.toNat s.nextLinearId := by
  unfold Add at hadd
  by_cases hcnt : s.count < s.tableSize
  · rw [if_pos hcnt] at hadd
    injection hadd with h1
    rw [Prod.mk.injEq] at h1
    obtain ⟨hh, hs⟩ := h1
    subst hh
    subst hs
    exact ⟨hcnt, rfl, rfl, rfl, rfl⟩
  · rw [if_neg hcnt] at hadd
    cases hadd

/-- Under the invariant, the free head of a non-full table is a valid empty
slot. -/
theorem freeHead_empty_slot (s : HTState) (hinv : TableInv s)
    (hcnt : s.count < s.tableSize) :
    s.freeHeadIndex = (s.freeHeadIndex.toNat : Int)
    ∧ s.freeHeadIndex.toNat < s.tableSize
    ∧ s.objects.getD s.freeHeadIndex.toNat none = none := by
  obtain ⟨fl, hchain, hnd, hnone, hlen, he, ho, hrest⟩ := hinv
  rcases chainOk_cases hchain with ⟨hhd, hfl⟩ | ⟨i, rest, hhd, hfl, hi, _⟩
  · subst hfl
    simp at hlen
    omega
  · subst hfl
    rw [hhd]
    have : ((i : Int)).toNat = i := Int.toNat_natCast i
    rw [this]
    exact ⟨rfl, by omega, hnone i (by simp)⟩

/-- A successful `Add` preserves the invariant and the returned handle
resolves to the object just added. -/
theorem add_of_success (s : HTState) (obj : KObj) (h' : Nat) (s' : HTState)
    (hinv : TableInv s) (hadd : Add s obj = some (h', s')) :
    TableInv s' ∧ GetObjectImpl s' h' = some obj := by
  obtain ⟨fl, hchain, hnd, hnone, hlen, he, ho, hlin1, hlin2, hts⟩ := hinv
  obtain ⟨hcnt, hts', hobj', hent', hh'⟩ := add_fields s obj h' s' hadd
  rcases chainOk_cases hchain with ⟨hhd, hfl⟩ | ⟨i, rest, hhd, hfl, hi, hrest⟩
  · subst hfl
    simp at hlen
    omega
  · subst hfl
    have hidx : s.freeHeadIndex.toNat = i := by rw [hhd]; exact Int.toNat_natCast i
    rw [hidx] at hobj' hent' hh'
    have hnotin : i ∉ rest := (List.nodup_cons.mp hnd).1
    have hi_ts : i < s.tableSize := by omega
    have hin_lt : i < 32768 := by omega
    have hlin_lt : s.nextLinearId < 32768 := by omega
    -- state fields of s' beyond the three arrays
    have hcount' : s'.count = s.count + 1 := by
      unfold Add at hadd
      rw [if_pos hcnt] at hadd
      injection hadd with h1
      rw [Prod.mk.injEq] at h1
      rw [← h1.2]
    have hnext' : s'.nextLinearId =
        if 32767 < s.nextLinearId + 1 then 1 else s.nextLinearId + 1 := by
      unfold Add at hadd
      rw [if_pos hcnt] at hadd
      injection hadd with h1
      rw [Prod.mk.injEq] at h1
      rw [← h1.2]
    have hfree' : s'.freeHeadIndex = decodeS16 (s.entryInfos.getD i 0) := by
      unfold Add at hadd
      rw [if_pos hcnt] at hadd
      injection hadd with h1
      rw [Prod.mk.injEq] at h1
      rw [← h1.2]
      simp only
      rw [hidx]
    constructor
    · refine ⟨rest, ?_, (List.nodup_cons.mp hnd).2, ?_, ?_, ?_, ?_, ?_, ?_, ?_⟩
      · rw [hfree', hent']
        refine chainOk_congr hrest (by simp) ?_
        intro j hj
        exact getD_set_of_ne _ i j _ _ (fun hij => hnotin (hij ▸ hj))
      · intro j hj
        rw [hobj', getD_set_of_ne _ i j _ _ (fun hij => hnotin (hij ▸ hj))]
        exact hnone j (by simp [hj])
      · simp only [List.length_cons] at hlen
        omega
      · rw [hent', hts']
        simp [he]
      · rw [hobj', hts']
        simp [ho]
      · rw [hnext']
        split <;> omega
      · rw [hnext']
        split <;> omega
      · omega
    · rw [getObjectImpl_eq_some]
      have hhval : h' = i + s.nextLinearId * 32768 := by
        rw [hh']
        rfl
      refine ⟨?_, ?_, ?_, ?_, ?_, ?_⟩
      · unfold handleReserved
        omega
      · omega
      · unfold handleLinearId
        omega
      · unfold handleIndex
        rw [hts']
        omega
      · unfold handleIndex
        rw [hobj']
        have : (i + s.nextLinearId * 32768) % 32768 = i := by omega
        rw [hhval, this]
        exact getD_set_self _ i _ _ (by omega)
      · unfold handleIndex handleLinearId
        rw [hent']
        have h1 : (i + s.nextLinearId * 32768) % 32768 = i := by omega
        have h2 : (i + s.nextLinearId * 32768) % 4294967296 / 32768 % 32768
            = s.nextLinearId := by omega
        rw [hhval, h1, h2]
        exact getD_set_self _ i _ _ (by omega)

/-- `IsValidHandle` unpacked. -/
theorem isValidHandle_true_parts (s : HTState) (h : Nat)
    (hv : IsValidHandle s h = true) :
    ¬ h % 4294967296 = 0 ∧ ¬ handleLinearId h = 0 ∧ handleIndex h < s.tableSize
    ∧ (∃ o, s.objects.getD (handleIndex h) none = some o)
    ∧ s.entryInfos.getD (handleIndex h) 0 = handleLinearId h := by
  unfold IsValidHandle at hv
  by_cases h2 : h % 4294967296 = 0
  · rw [if_pos h2] at hv; cases hv
  · rw [if_neg h2] at hv
    by_cases h3 : handleLinearId h = 0
    · rw [if_pos h3] at hv; cases hv
    · rw [if_neg h3] at hv
      by_cases h4 : s.tableSize ≤ handleIndex h
      · rw [if_pos h4] at hv; cases hv
      · rw [if_neg h4] at hv
        cases hobj : s.objects.getD (handleIndex h) none with
        | none => rw [hobj] at hv; cases hv
        | some o' =>
          rw [hobj] at hv
          exact ⟨h2, h3, by omega, ⟨o', rfl⟩, of_decide_eq_true hv⟩

/-- Any duplicate-free list of `n` distinct naturals below `n` contains every
natural below `n`. -/
theorem nodup_full_range_mem (fl : List Nat) (n : Nat) (hnd : fl.Nodup)
    (hlt : ∀ i ∈ fl, i < n) (hlen : fl.length = n) : ∀ j < n, j ∈ fl := by
  intro j hj
  have hsub : fl.toFinset ⊆ Finset.range n := by
    intro x hx
    simp only [List.mem_toFinset] at hx
    simpa using hlt x hx
  have hcard : fl.toFinset.card = n := by
    rw [List.toFinset_card_of_nodup hnd, hlen]
  have heq : fl.toFinset = Finset.range n := by
    apply Finset.eq_of_subset_of_card_le hsub
    rw [hcard]
    simp
  have : j ∈ fl.toFinset := by
    rw [heq]
    simpa using hj
  simpa using this

/-- `Remove` preserves the invariant. -/
theorem tableInv_remove (s : HTState) (h : Nat) (hinv : TableInv s) :
    TableInv (Remove s h).2 := by
  unfold Remove
  by_cases hp : h = CurrentProcessHandle ∨ h = CurrentThreadHandle
  · rw [if_pos hp]; exact hinv
  · rw [if_neg hp]
    by_cases hr : handleReserved h ≠ 0
    · rw [if_pos hr]; exact hinv
    · rw [if_neg hr]
      by_cases hv : IsValidHandle s h = true
      · rw [if_pos hv]
        obtain ⟨fl, hchain, hnd, hnone, hlen, he, ho, hlin1, hlin2, hts⟩ := hinv
        obtain ⟨_, _, hidx_ts, ⟨o, hobj⟩, _⟩ := isValidHandle_true_parts s h hv
        have hnotin : handleIndex h ∉ fl := by
          intro hmem
          rw [hnone _ hmem] at hobj
          cases hobj
        have hcnt_pos : 0 < s.count := by
          by_contra hc0
          push_neg at hc0
          have hflts : fl.length = s.tableSize := by omega
          have := nodup_full_range_mem fl s.tableSize hnd
            (fun i hi => by have := chainOk_mem_lt hchain i hi; omega)
            hflts (handleIndex h) hidx_ts
          exact hnotin this
        have hhead : s.freeHeadIndex = -1 ∨
            (0 ≤ s.freeHeadIndex ∧ s.freeHeadIndex < (s.tableSize : Int)) := by
          rcases chainOk_head_range hchain with h1 | ⟨h1, h2⟩
          · exact Or.inl h1
          · exact Or.inr ⟨h1, by omega⟩
        refine ⟨handleIndex h :: fl, ?_, List.nodup_cons.mpr ⟨hnotin, hnd⟩, ?_, ?_,
          by simp [he], by simp [ho], hlin1, hlin2, hts⟩
        · refine ChainOk.cons (by simp only [List.length_set]; omega) ?_
            (chainOk_congr hchain (by simp) ?_)
          · rw [getD_set_self _ _ _ _ (by omega),
              decodeS16_encodeS16 _ (by omega) (by omega)]
          · intro j hj
            exact getD_set_of_ne _ _ j _ _ (fun hij => hnotin (hij ▸ hj))
        · intro j hj
          rcases List.mem_cons.mp hj with rfl | hjr
          · exact getD_set_self _ _ _ _ (by omega)
          · rw [getD_set_of_ne _ _ j _ _ (fun hij => hnotin (by rw [hij]; exact hjr))]
            exact hnone j hjr
        · simp only [List.length_cons]
          omega
      · rw [if_neg hv]; exact hinv

/-- Field-level description of a successful `Remove`. -/
theorem remove_fields (s : HTState) (h : Nat)
    (hp : ¬ (h = CurrentProcessHandle ∨ h = CurrentThreadHandle))
    (hr : ¬ handleReserved h ≠ 0) (hv : IsValidHandle s h = true) :
    (Remove s h).2.objects = s.objects.set (handleIndex h) none
    ∧ (Remove s h).2.entryInfos
        = s.entryInfos.set (handleIndex h) (encodeS16 s.freeHeadIndex)
    ∧ (Remove s h).2.tableSize = s.tableSize := by
  unfold Remove
  rw [if_neg hp, if_neg hr, if_pos hv]
  exact ⟨rfl, rfl, rfl⟩

/-- One step of `Add`/`Remove` preserves the invariant. -/
theorem tableInv_step (s : HTState) (op : HTOp) (hinv : TableInv s) :
    TableInv (stepOp s op) := by
  cases op with
  | add obj =>
    simp only [stepOp]
    cases hadd : Add s obj with
    | none => exact hinv
    | some p =>
      obtain ⟨h', s'⟩ := p
      exact (add_of_success s obj h' s' hinv hadd).1
  | remove h => exact tableInv_remove s h hinv

theorem tableInv_exec (s : HTState) (ops : List HTOp) (hinv : TableInv s) :
    TableInv (exec s ops) := by
  induction ops generalizing s with
  | nil => exact hinv
  | cons op rest ih => exact ih (stepOp s op) (tableInv_step s op hinv)

/-- One step that is not `remove h` keeps `h` resolving to the same object. -/
theorem lookup_step_preserved (s : HTState) (op : HTOp) (h : Nat) (o : KObj)
    (hinv : TableInv s) (hh : h < 4294967296)
    (hl : GetObjectImpl s h = some o) (hop : HTOpValid op)
    (hnr : removesHandle op h = false) :
    GetObjectImpl (stepOp s op) h = some o := by
  obtain ⟨p1, p2, p3, p4, p5, p6⟩ := (getObjectImpl_eq_some s h o).mp hl
  cases op with
  | add obj =>
    simp only [stepOp]
    cases hadd : Add s obj with
    | none => exact hl
    | some p =>
      obtain ⟨h', s'⟩ := p
      show GetObjectImpl s' h = some o
      obtain ⟨hcnt, hts', hobj', hent', _⟩ := add_fields s obj h' s' hadd
      obtain ⟨_, _, hfree_none⟩ := freeHead_empty_slot s hinv hcnt
      have hne : s.freeHeadIndex.toNat ≠ handleIndex h := by
        intro heq
        rw [heq, p5] at hfree_none
        cases hfree_none
      rw [getObjectImpl_eq_some]
      refine ⟨p1, p2, p3, by omega, ?_, ?_⟩
      · rw [hobj', getD_set_of_ne _ _ _ _ _ hne]
        exact p5
      · rw [hent', getD_set_of_ne _ _ _ _ _ hne]
        exact p6
  | remove h' =>
    simp only [stepOp]
    unfold Remove
    by_cases hp : h' = CurrentProcessHandle ∨ h' = CurrentThreadHandle
    · rw [if_pos hp]; exact hl
    · rw [if_neg hp]
      by_cases hr : handleReserved h' ≠ 0
      · rw [if_pos hr]; exact hl
      · rw [if_neg hr]
        by_cases hv : IsValidHandle s h' = true
        · rw [if_pos hv]
          obtain ⟨q1, q2, q3, ⟨o', q4⟩, q5⟩ := isValidHandle_true_parts s h' hv
          have hvalid : h' < 4294967296 := hop
          have hne : handleIndex h' ≠ handleIndex h := by
            intro heq
            have hlin_eq : handleLinearId h' = handleLinearId h := by
              rw [← q5, heq, p6]
            have hres : handleReserved h' = 0 := by
              push_neg at hr
              exact hr
            have : h' = h := by
              unfold handleIndex at heq
              unfold handleLinearId at hlin_eq
              unfold handleReserved at p1 hres
              omega
            rw [this] at hnr
            simp [removesHandle] at hnr
          rw [getObjectImpl_eq_some]
          refine ⟨p1, p2, p3, p4, ?_, ?_⟩
          · simp only
            rw [getD_set_of_ne _ _ _ _ _ hne]
            exact p5
          · simp only
            rw [getD_set_of_ne _ _ _ _ _ hne]
            exact p6
        · rw [if_neg hv]; exact hl

/-- A handle keeps resolving across any sequence of operations none of which
removes it. -/
theorem lookup_exec_preserved (s : HTState) (ops : List HTOp) (h : Nat) (o : KObj)
    (hinv : TableInv s) (hh : h < 4294967296)
    (hl : GetObjectImpl s h = some o)
    (hops : ∀ op ∈ ops, HTOpValid op ∧ removesHandle op h = false) :
    GetObjectImpl (exec s ops) h = some o := by
  induction ops generalizing s with
  | nil => exact hl
  | cons op rest ih =>
    have hop := hops op (by simp)
    exact ih (stepOp s op) (tableInv_step s op hinv)
      (lookup_step_preserved s op h o hinv hh hl hop.1 hop.2)
      (fun x hx => hops x (by simp [hx]))

end KHandleTable

namespace KMutex

theorem wakeupLoop_zero (mid : Nat) (s : MxState) : WakeupLoop mid 0 s = s := rfl

theorem wakeupLoop_one (mid : Nat) (s : MxState) :
    WakeupLoop mid 1 s =
      match GetHighestPriorityReadyThread s mid with
      | none => s
      | some tid => WakeupLoop mid 0 (WakeupIter s mid tid) := rfl

end KMutex

open KMutex in
/-- **C4**: mutex priority inheritance. (a) When a thread of current priority
5 starts waiting on a mutex whose holder has nominal and tracked priority 10,
the mutex's tracked priority becomes 5 and the holder's current (not nominal)
priority becomes 5. (b) When the holder releases the mutex (waking the
waiter), its current priority reverts to the minimum of its nominal priority
and the priority of the one mutex it still holds. (c) When the waiter instead
stops waiting, the holder reverts to its nominal priority. (d) In general,
`KMutex::UpdatePriority` makes the mutex's priority the minimum current
priority among its waiters, and (e) `KThread::UpdatePriority` makes a
holder's current priority the minimum of its nominal priority and the
priorities of all mutexes it holds. -/
theorem c4_mutex_priority_inheritance :
    (∀ (s : KMutex.MxState) (mid t1 t2 : Nat),
      (s.mutexes mid).holder = some t1 →
      (s.mutexes mid).waiters = [] →
      (s.mutexes mid).priority = 10 →
      (s.threads t1).nominal = 10 →
      (s.threads t1).held = [mid] →
      (s.threads t2).current = 5 →
      t1 ≠ t2 →
      ((KMutex.AddWaitingThread s mid t2).mutexes mid).priority = 5
      ∧ ((KMutex.AddWaitingThread s mid t2).threads t1).current = 5
      ∧ ((KMutex.AddWaitingThread s mid t2).threads t1).nominal = 10)
    ∧ (∀ (s : KMutex.MxState) (mid m2 t1 t2 n1 p2 : Nat),
      (s.mutexes mid).lockCount = 1 →
      (s.mutexes mid).holder = some t1 →
      (s.mutexes mid).waiters = [t2] →
      (s.mutexes mid).priority = 5 →
      (s.mutexes m2).priority = p2 →
      (s.threads t1).nominal = n1 →
      (s.threads t1).held = [mid, m2] →
      (s.threads t2).nominal = 5 →
      (s.threads t2).current = 5 →
      (s.threads t2).held = [] →
      (s.threads t2).status = ThreadStatus.WaitSynchAny →
      (s.threads t2).waitObjs = [mid] →
      (s.threads t2).pending = [mid] →
      t1 ≠ t2 → mid ≠ m2 →
      (KMutex.Release s mid t1).1 = KResult.success
      ∧ ((KMutex.Release s mid t1).2.threads t1).current = min n1 p2
      ∧ ((KMutex.Release s mid t1).2.threads t1).held = [m2])
    ∧ (∀ (s : KMutex.MxState) (mid t1 t2 n1 : Nat),
      (s.mutexes mid).holder = some t1 →
      (s.mutexes mid).waiters = [t2] →
      (s.mutexes mid).priority = 5 →
      (s.threads t1).nominal = n1 →
      n1 ≤ 63 →
      (s.threads t1).held = [mid] →
      t1 ≠ t2 →
      ((KMutex.RemoveWaitingThread s mid t2).threads t1).current = n1
      ∧ ((KMutex.RemoveWaitingThread s mid t2).mutexes mid).priority = 63)
    ∧ (∀ (s : KMutex.MxState) (mid holder : Nat),
      (s.mutexes mid).holder = some holder →
      (∀ t ∈ (s.mutexes mid).waiters, (s.threads t).current ≤ threadPrioLowest) →
      (s.mutexes mid).waiters ≠ [] →
      (∀ t ∈ (s.mutexes mid).waiters,
        ((KMutex.MutexUpdatePriority s mid).mutexes mid).priority ≤ (s.threads t).current)
      ∧ (∃ t ∈ (s.mutexes mid).waiters,
        ((KMutex.MutexUpdatePriority s mid).mutexes mid).priority = (s.threads t).current))
    ∧ (∀ (s : KMutex.MxState) (tid : Nat),
      ((KMutex.ThreadUpdatePriority s tid).threads tid).current ≤ (s.threads tid).nominal
      ∧ (∀ m ∈ (s.threads tid).held,
          ((KMutex.ThreadUpdatePriority s tid).threads tid).current ≤ (s.mutexes m).priority)
      ∧ (((KMutex.ThreadUpdatePriority s tid).threads tid).current = (s.threads tid).nominal
          ∨ ∃ m ∈ (s.threads tid).held,
            ((KMutex.ThreadUpdatePriority s tid).threads tid).current
              = (s.mutexes m).priority)) := by
  refine ⟨?_, ?_, ?_, ?_, ?_⟩
  · intro s mid t1 t2 hh hw hpr hn1 hheld hc2 hne
    simp [AddWaitingThread, MutexUpdatePriority, ThreadUpdatePriority, setMutex, setThread,
      insertId, hh, hw, hpr, hn1, hheld, hc2, hne, threadPrioLowest, Ne.symm hne]
  · intro s mid m2 t1 t2 n1 p2 hlc hh hw hpr hpr2 hn1 hheld hn2 hc2 hheld2 hst2 hwo2 hp2
      hne hnem
    simp only [Release, hh, hlc]
    norm_num
    simp only [WakeupAllWaitingThreads]
    simp [GetHighestPriorityReadyThread, waiterView, ShouldWait, setMutex, setThread,
      ThreadUpdatePriority, hh, hw, hpr, hpr2, hn1, hheld, hn2, hc2, hheld2, hst2, hwo2, hp2,
      hne, hnem, Ne.symm hne, Ne.symm hnem, threadPrioLowest,
      KSynchronizationObject.GetHighestPriorityReadyThread,
      KSynchronizationObject.GetHighestPriorityReadyThreadGo]
    simp only [wakeupLoop_one]
    simp [WakeupIter, GetHighestPriorityReadyThread, waiterView, ShouldWait, Acquire,
      RemoveWaitingThread, MutexUpdatePriority, ThreadUpdatePriority, MxResumeFromWait,
      setMutex, setThread, insertId, wakeupLoop_zero, threadPrioLowest,
      KSynchronizationObject.GetHighestPriorityReadyThread,
      KSynchronizationObject.GetHighestPriorityReadyThreadGo,
      hh, hw, hpr, hpr2, hn1, hheld, hn2, hc2, hheld2, hst2, hwo2, hp2,
      hne, hnem, Ne.symm hne, Ne.symm hnem]
    rw [Nat.min_def]
    split_ifs <;> omega
  · intro s mid t1 t2 n1 hh hw hpr hn1 hb hheld hne
    simp [RemoveWaitingThread, MutexUpdatePriority, ThreadUpdatePriority, setMutex, setThread,
      hh, hw, hpr, hn1, hheld, hne, threadPrioLowest, Ne.symm hne]
    omega
  · intro s mid holder hh hb hne
    have hprio : ((MutexUpdatePriority s mid).mutexes mid).priority =
        (s.mutexes mid).waiters.foldl
          (fun b t => if (s.threads t).current < b then (s.threads t).current else b)
          threadPrioLowest := by
      simp only [MutexUpdatePriority, hh]
      split
      · simp [ThreadUpdatePriority, setThread, setMutex]
      · rename_i hbest
        push_neg at hbest
        rw [hbest]
    rw [hprio]
    have hle := foldl_min_le_helper (fun t => (s.threads t).current)
      (s.mutexes mid).waiters threadPrioLowest
    have hmem := foldl_min_mem_helper (fun t => (s.threads t).current)
      (s.mutexes mid).waiters threadPrioLowest
    refine ⟨hle.2, ?_⟩
    rcases hmem with h63 | ⟨t0, ht0, heq⟩
    · obtain ⟨t0, ht0⟩ := List.exists_mem_of_ne_nil _ hne
      refine ⟨t0, ht0, ?_⟩
      have h1 := hle.2 t0 ht0
      have h2 := hb t0 ht0
      omega
    · exact ⟨t0, ht0, heq⟩
  · intro s tid
    have hcur : ((ThreadUpdatePriority s tid).threads tid).current =
        (s.threads tid).held.foldl
          (fun b m => if (s.mutexes m).priority < b then (s.mutexes m).priority else b)
          (s.threads tid).nominal := by
      simp [ThreadUpdatePriority, setThread]
    rw [hcur]
    have hle := foldl_min_le_helper (fun m => (s.mutexes m).priority)
      (s.threads tid).held (s.threads tid).nominal
    have hmem := foldl_min_mem_helper (fun m => (s.mutexes m).priority)
      (s.threads tid).held (s.threads tid).nominal
    exact ⟨hle.1, hle.2, hmem⟩

/-- Witness for the hypotheses of `c4_mutex_priority_inheritance` at the
concrete scenarios: adding the priority-5 waiter boosts mutex and holder to
5; releasing reverts the holder to `min 10 7 = 7` (its other held mutex);
removing the waiter reverts the holder to its nominal 10. -/
theorem c4_mutex_priority_inheritance_witness :
    (((KMutex.AddWaitingThread KMutex.c4StateA 5 2).mutexes 5).priority = 5
      ∧ ((KMutex.AddWaitingThread KMutex.c4StateA 5 2).threads 1).current = 5
      ∧ ((KMutex.AddWaitingThread KMutex.c4StateA 5 2).threads 1).nominal = 10)
    ∧ ((KMutex.Release KMutex.c4StateB 5 1).1 = KResult.success
      ∧ ((KMutex.Release KMutex.c4StateB 5 1).2.threads 1).current = min 10 7
      ∧ ((KMutex.Release KMutex.c4StateB 5 1).2.threads 1).held = [6])
    ∧ (((KMutex.RemoveWaitingThread KMutex.c4StateC 5 2).threads 1).current = 10
      ∧ ((KMutex.RemoveWaitingThread KMutex.c4StateC 5 2).mutexes 5).priority = 63)
    ∧ (∃ t ∈ (KMutex.c4StateB.mutexes 5).waiters,
        ((KMutex.MutexUpdatePriority KMutex.c4StateB 5).mutexes 5).priority
          = (KMutex.c4StateB.threads t).current)
    ∧ ((KMutex.ThreadUpdatePriority KMutex.c4StateB 1).threads 1).current
        ≤ (KMutex.c4StateB.threads 1).nominal := by
  refine ⟨?_, ?_, ?_, ?_, ?_⟩
  · exact c4_mutex_priority_inheritance.1 KMutex.c4StateA 5 1 2 (by decide) (by decide)
      (by decide) (by decide) (by decide) (by decide) (by decide)
  · exact c4_mutex_priority_inheritance.2.1 KMutex.c4StateB 5 6 1 2 10 7 (by decide)
      (by decide) (by decide) (by decide) (by decide) (by decide) (by decide) (by decide)
      (by decide) (by decide) (by decide) (by decide) (by decide) (by decide) (by decide)
  · exact c4_mutex_priority_inheritance.2.2.1 KMutex.c4StateC 5 1 2 10 (by decide)
      (by decide) (by decide) (by decide) (by decide) (by decide) (by decide)
  · exact (c4_mutex_priority_inheritance.2.2.2.1 KMutex.c4StateB 5 1 (by decide)
      (by decide) (by decide)).2
  · exact (c4_mutex_priority_inheritance.2.2.2.2 KMutex.c4StateB 1).1


/-- **C5**: over any `Add`/`Remove` sequence from an initialized table, a
handle returned by `Add` resolves to the object just added; a resolving
handle keeps resolving to the same object across any further `Add`/`Remove`
operations that do not remove precisely it; and in any state a handle whose
slot is empty, or whose slot's stored linear id differs from the handle's
linear id, never resolves. -/
theorem c5_handle_table_resolution :
    ∀ (size : Nat), size ≤ 1024 →
    ∀ ops : List KHandleTable.HTOp,
      (∀ (obj : KHandleTable.KObj) (h : Nat) (s' : KHandleTable.HTState),
        KHandleTable.Add (KHandleTable.exec (KHandleTable.Initialize size) ops) obj
          = some (h, s') →
        KHandleTable.GetObjectImpl s' h = some obj)
      ∧ (∀ (h : Nat) (o : KHandleTable.KObj) (ops2 : List KHandleTable.HTOp),
          h < 4294967296 →
          KHandleTable.GetObjectImpl (KHandleTable.exec (KHandleTable.Initialize size) ops) h
            = some o →
          (∀ op ∈ ops2, KHandleTable.HTOpValid op ∧ KHandleTable.removesHandle op h = false) →
          KHandleTable.GetObjectImpl
            (KHandleTable.exec (KHandleTable.exec (KHandleTable.Initialize size) ops) ops2) h
            = some o)
      ∧ (∀ (s : KHandleTable.HTState) (h : Nat),
          (s.objects.getD (KHandleTable.handleIndex h) none = none
            ∨ ¬ s.entryInfos.getD (KHandleTable.handleIndex h) 0
                = KHandleTable.handleLinearId h) →
          KHandleTable.GetObjectImpl s h = none) := by
  intro size hsz ops
  have hinv : KHandleTable.TableInv (KHandleTable.exec (KHandleTable.Initialize size) ops) :=
    KHandleTable.tableInv_exec _ ops (KHandleTable.tableInv_init size hsz)
  refine ⟨?_, ?_, ?_⟩
  · intro obj h s' hadd
    exact (KHandleTable.add_of_success _ obj h s' hinv hadd).2
  · intro h o ops2 hh hl hops
    exact KHandleTable.lookup_exec_preserved _ ops2 h o hinv hh hl hops
  · intro s h hstale
    cases hx : KHandleTable.GetObjectImpl s h with
    | none => rfl
    | some o =>
      obtain ⟨_, _, _, _, p5, p6⟩ := (KHandleTable.getObjectImpl_eq_some s h o).mp hx
      rcases hstale with hs1 | hs2
      · rw [hs1] at p5; cases p5
      · exact absurd p6 hs2

/-- Witness for the hypotheses of `c5_handle_table_resolution` at concrete
inputs: on a table of size 4, the first `Add` hands out handle
`0x8003` (slot 3, linear id 1); it still resolves after an unrelated add and
a remove of an unrelated (invalid) handle; and a never-issued handle with a
mismatched linear id does not resolve. -/
theorem c5_handle_table_resolution_witness :
    (KHandleTable.GetObjectImpl
      (KHandleTable.exec (KHandleTable.exec (KHandleTable.Initialize 4)
        [.add (.other 42)])
        [.add (.other 7), .remove 5]) 32771 = some (.other 42))
    ∧ KHandleTable.GetObjectImpl
        (KHandleTable.exec (KHandleTable.Initialize 4) [.add (.other 42)]) 65539 = none := by
  constructor
  · exact (c5_handle_table_resolution 4 (by decide) [.add (.other 42)]).2.1
      32771 (.other 42) [.add (.other 7), .remove 5] (by decide) (by decide) (by decide)
  · exact (c5_handle_table_resolution 4 (by decide) [.add (.other 42)]).2.2
      (KHandleTable.exec (KHandleTable.Initialize 4) [.add (.other 42)]) 65539 (by decide)

/-- **C6**: starting from a freshly created object (one reference), any
`Open`/`Close` sequence destroys the object at most once, and exactly once
precisely when the count has reached zero; the destroying `Close` is the one
that takes the count from 1 to 0; `Open` fails without incrementing on a
zero count; `Close` on a zero count trips the assertion and never destroys
again. -/
theorem c6_auto_object_destroy_once :
    (∀ ops : List KAutoObject.RefOp,
      (KAutoObject.run ops KAutoObject.initial).destroyCount ≤ 1
      ∧ ((KAutoObject.run ops KAutoObject.initial).refCount = 0 →
          (KAutoObject.run ops KAutoObject.initial).destroyCount = 1)
      ∧ ((KAutoObject.run ops KAutoObject.initial).refCount ≠ 0 →
          (KAutoObject.run ops KAutoObject.initial).destroyCount = 0))
    ∧ (∀ s : KAutoObject.RefState, s.refCount = 1 →
        KAutoObject.Close s = { s with refCount := 0, destroyCount := s.destroyCount + 1 })
    ∧ (∀ s : KAutoObject.RefState, s.refCount ≠ 1 →
        (KAutoObject.Close s).destroyCount = s.destroyCount)
    ∧ (∀ s : KAutoObject.RefState,
        ((KAutoObject.Open s).2.destroyCount = s.destroyCount
          ∧ (KAutoObject.Open s).2.refCount = s.refCount + (if s.refCount = 0 then 0 else 1))
        ∧ (s.refCount = 0 → KAutoObject.Open s = (false, s)))
    ∧ (∀ s : KAutoObject.RefState, s.refCount = 0 →
        (KAutoObject.Close s).assertFailed = true
        ∧ (KAutoObject.Close s).destroyCount = s.destroyCount
        ∧ (KAutoObject.Close s).refCount = 0) := by
  refine ⟨?_, ?_, ?_, ?_, ?_⟩
  · intro ops
    have h := KAutoObject.run_inv ops KAutoObject.initial (by simp [KAutoObject.initial])
    rcases h with ⟨h1, h2⟩ | ⟨h1, h2⟩ <;> refine ⟨by omega, ?_, ?_⟩ <;> simp_all
  · intro s h
    simp [KAutoObject.Close, h]
  · intro s h
    simp only [KAutoObject.Close]
    split
    · rfl
    · split <;> simp_all <;> omega
  · intro s
    constructor
    · simp only [KAutoObject.Open]
      split <;> simp_all
    · intro h
      simp [KAutoObject.Open, h]
  · intro s h
    simp [KAutoObject.Close, h]

/-- Witness for the hypotheses of `c6_auto_object_destroy_once` at concrete
inputs. -/
theorem c6_auto_object_destroy_once_witness :
    ((KAutoObject.run [.cls] KAutoObject.initial).refCount = 0
      ∧ (KAutoObject.run [.cls] KAutoObject.initial).destroyCount = 1)
    ∧ KAutoObject.Close ⟨1, 0, false⟩ = ⟨0, 1, false⟩
    ∧ (KAutoObject.Close ⟨0, 1, false⟩).assertFailed = true := by
  refine ⟨⟨by decide, (c6_auto_object_destroy_once.1 [.cls]).2.1 (by decide)⟩, ?_, ?_⟩
  · exact c6_auto_object_destroy_once.2.1 ⟨1, 0, false⟩ (by decide)
  · exact (c6_auto_object_destroy_once.2.2.2.2 ⟨0, 1, false⟩ (by decide)).1

/-- **C7**: `KSemaphore::Release` fails with the kernel out-of-range error
exactly when the released count would push the available count past the
maximum, leaving the count and waiter list untouched; on success it reports
the pre-release count and the post state is the wakeup pass applied to the
incremented count (which, with no waiters, is exactly the incremented
count). -/
theorem c7_semaphore_release_bounds :
    ∀ (s : KSemaphore.SemState) (releaseCount : Int),
      (s.maxCount < s.availableCount + releaseCount →
        KSemaphore.Release s releaseCount = (KResult.outOfRangeKernel, none, s))
      ∧ (s.availableCount + releaseCount ≤ s.maxCount →
        KSemaphore.Release s releaseCount =
          (KResult.success, some s.availableCount,
            { availableCount :=
                (KSemaphore.WakeupAllWaitingThreads (s.availableCount + releaseCount) s.waiters).1
              maxCount := s.maxCount
              waiters :=
                (KSemaphore.WakeupAllWaitingThreads (s.availableCount + releaseCount) s.waiters).2 }))
      ∧ ((KSemaphore.Release s releaseCount).1 = KResult.success ↔
          s.availableCount + releaseCount ≤ s.maxCount)
      ∧ (s.waiters = [] → s.availableCount + releaseCount ≤ s.maxCount →
          (KSemaphore.Release s releaseCount).2.2.availableCount
            = s.availableCount + releaseCount) := by
  intro s releaseCount
  have hcomm : releaseCount + s.availableCount = s.availableCount + releaseCount := by ring
  refine ⟨?_, ?_, ?_, ?_⟩
  · intro h
    simp only [KSemaphore.Release, hcomm]
    rw [if_neg (by omega)]
  · intro h
    simp only [KSemaphore.Release, hcomm]
    rw [if_pos (by omega)]
  · simp only [KSemaphore.Release, hcomm]
    split
    · rename_i h'
      exact ⟨fun _ => h', fun _ => rfl⟩
    · rename_i h'
      refine ⟨fun hx => ?_, fun hx => absurd hx h'⟩
      simp at hx
  · intro hw h
    simp only [KSemaphore.Release, hcomm, hw]
    rw [if_pos (by omega)]
    simp [KSemaphore.WakeupAllWaitingThreads, KSemaphore.WakeupLoop]

/-- Witness for the hypotheses of `c7_semaphore_release_bounds` at concrete
inputs: a semaphore at count 1 of maximum 2; releasing 5 fails and leaves it
untouched, releasing 1 succeeds reporting previous count 1. -/
theorem c7_semaphore_release_bounds_witness :
    KSemaphore.Release ⟨1, 2, []⟩ 5 = (KResult.outOfRangeKernel, none, ⟨1, 2, []⟩)
    ∧ KSemaphore.Release ⟨1, 2, []⟩ 1 = (KResult.success, some 1, ⟨2, 2, []⟩)
    ∧ (KSemaphore.Release ⟨1, 2, []⟩ 1).2.2.availableCount = 2 := by
  refine ⟨(c7_semaphore_release_bounds ⟨1, 2, []⟩ 5).1 (by decide), ?_, ?_⟩
  · have h := (c7_semaphore_release_bounds ⟨1, 2, []⟩ 1).2.1 (by decide)
    simpa [KSemaphore.WakeupAllWaitingThreads, KSemaphore.WakeupLoop] using h
  · exact (c7_semaphore_release_bounds ⟨1, 2, []⟩ 1).2.2.2 rfl (by decide)

/-- **C8**: `ArbitrateAddress` with either timeout variant returns
`ResultTimeout` for every state, address, comparison value and timeout —
whether or not the comparison put the thread to sleep. -/
theorem c8_arbiter_timeout_quirk :
    ∀ (s : KAddressArbiter.ArbState) (tid address : Nat) (value nanoseconds : Int),
      (KAddressArbiter.ArbitrateAddress s tid
        KAddressArbiter.ArbitrationType.WaitIfLessThanWithTimeout
        address value nanoseconds).1 = KResult.timeout
      ∧ (KAddressArbiter.ArbitrateAddress s tid
          KAddressArbiter.ArbitrationType.DecrementAndWaitIfLessThanWithTimeout
          address value nanoseconds).1 = KResult.timeout := by
  intro s tid address value nanoseconds
  exact ⟨rfl, rfl⟩

/-- **C10**: `ResumeFromWait` on a thread whose status is already `Ready`
changes nothing: not the thread record, not the ready queue — the duplicate
wakeup is a no-op. -/
theorem c10_resume_from_wait_ready_noop :
    ∀ (s : KThreadWorld.TWState) (tid : Nat),
      (s.threads tid).status = ThreadStatus.Ready →
      KThreadWorld.ResumeFromWait s tid = s := by
  intro s tid h
  simp only [KThreadWorld.ResumeFromWait, h]

/-- Witness for the hypothesis of `c10_resume_from_wait_ready_noop` at a
concrete input. -/
theorem c10_resume_from_wait_ready_noop_witness :
    (c10WitnessState.threads 0).status = ThreadStatus.Ready
    ∧ KThreadWorld.ResumeFromWait c10WitnessState 0 = c10WitnessState :=
  ⟨by decide, c10_resume_from_wait_ready_noop c10WitnessState 0 (by decide)⟩

/-- **C9** counterexample: in the source `KernelHandle` enum the value
`0xFFFF8000` is `CurrentThread` and `0xFFFF8001` is `CurrentProcess`, so on a
fresh table with current thread 7 owned by process 3, `0xFFFF8000` does not
resolve to the current process (it resolves to the thread) and `0xFFFF8001`
does not resolve to the current thread (it resolves to the process). -/
theorem c9_pseudo_handle_counterexample :
    KHandleTable.GetObjectForIpc (KHandleTable.Initialize 4) 0xFFFF8000 ⟨7, 3⟩
      ≠ some (KHandleTable.KObj.process 3)
    ∧ KHandleTable.GetObjectForIpc (KHandleTable.Initialize 4) 0xFFFF8001 ⟨7, 3⟩
      ≠ some (KHandleTable.KObj.thread 7)
    ∧ KHandleTable.GetObjectForIpc (KHandleTable.Initialize 4) 0xFFFF8000 ⟨7, 3⟩
      = some (KHandleTable.KObj.thread 7)
    ∧ KHandleTable.GetObjectForIpc (KHandleTable.Initialize 4) 0xFFFF8001 ⟨7, 3⟩
      = some (KHandleTable.KObj.process 3) := by
  refine ⟨by decide, by decide, by decide, by decide⟩

/-- **C9** as amended: the pseudo-handle `0xFFFF8000` resolves to the current
thread and `0xFFFF8001` to the current thread's owner process, bypassing the
table entirely (no slot or linear-id check: the resolution holds for every
table state). -/
theorem c9_pseudo_handles_amended :
    ∀ (s : KHandleTable.HTState) (ctx : KHandleTable.CurContext),
      KHandleTable.GetObjectForIpc s 0xFFFF8000 ctx
        = some (KHandleTable.KObj.thread ctx.threadId)
      ∧ KHandleTable.GetObjectForIpc s 0xFFFF8001 ctx
        = some (KHandleTable.KObj.process ctx.processId) := by
  intro s ctx
  constructor
  · simp [KHandleTable.GetObjectForIpc, KHandleTable.CurrentThreadHandle,
      KHandleTable.CurrentProcessHandle]
  · simp [KHandleTable.GetObjectForIpc, KHandleTable.CurrentProcessHandle]

/-- **C1** evaluation at the failing inputs. First: on the freshly initialized
manager covering `[0, 0x4000)`, `Update(addr=0, num_pages=1, Private,
UserReadWrite, tag=0)` splits the initial block but inserts the new block
*after* the shrunk remainder (`m_blocks.insert(++begin, *block)`), leaving the
list `[Free@0x1000, Private@0x0]` — not a sorted gapless cover. Second: after
a middle split, `Update(0, 2, Shared, UserReadWrite, tag=7)` spanning two
blocks with no boundary match creates the replacement block with tag `0`
instead of `tag` (`block->Initialize(addr, num_pages, 0, state, perms)`), so
applying the identical `Update` twice yields a different block list (tag 7)
than applying it once (tag 0). -/
theorem c1_update_code_bug_eval :
    (KMemoryBlockManager.Update (KMemoryBlockManager.InitializeManager 0 16384) 0 1
        KMemoryBlockManager.statePrivate KMemoryBlockManager.permUserReadWrite 0
      = some [KMemoryBlockManager.mkBlock 4096 3 0 KMemoryBlockManager.stateFree
                KMemoryBlockManager.permNone,
              KMemoryBlockManager.mkBlock 0 1 0 KMemoryBlockManager.statePrivate
                KMemoryBlockManager.permUserReadWrite]
     ∧ (KMemoryBlockManager.Update (KMemoryBlockManager.InitializeManager 0 16384) 0 1
          KMemoryBlockManager.statePrivate KMemoryBlockManager.permUserReadWrite 0).map
        (KMemoryBlockManager.IsSortedGaplessCover 0 16384) = some false)
    ∧ ((KMemoryBlockManager.Update (KMemoryBlockManager.InitializeManager 0 16384) 4096 1
          KMemoryBlockManager.statePrivate KMemoryBlockManager.permUserReadWrite 0).bind
        (fun bs => KMemoryBlockManager.Update bs 0 2 KMemoryBlockManager.stateShared
          KMemoryBlockManager.permUserReadWrite 7)
      ≠ ((KMemoryBlockManager.Update (KMemoryBlockManager.InitializeManager 0 16384) 4096 1
            KMemoryBlockManager.statePrivate KMemoryBlockManager.permUserReadWrite 0).bind
          (fun bs => KMemoryBlockManager.Update bs 0 2 KMemoryBlockManager.stateShared
            KMemoryBlockManager.permUserReadWrite 7)).bind
          (fun bs => KMemoryBlockManager.Update bs 0 2 KMemoryBlockManager.stateShared
            KMemoryBlockManager.permUserReadWrite 7)) := by
  refine ⟨⟨by decide, by decide⟩, by decide⟩

end Citra
